import Mathlib

/-!
Shallow embedding of the reference-count procedure generator
(`crates/compiler/mono/src/code_gen_help/refcount.rs`) and of the
WebAssembly function builder (`compiler/gen_wasm/src/function_builder.rs`).

The generator is a compiler pass that, given a layout and an operation,
produces IR (`Stmt`) for the specialized refcount procedure.  Each Rust
function is translated one to one; the mutable `IdentIds` symbol factory is
modelled by threading a `Nat` counter through the generators in the same
order in which `root.create_symbol` executes in the source, and the mutable
`Context` is threaded explicitly where the source mutates it.
-/

namespace Roc

/-- IR symbols.  `arg n` models `Symbol::ARG_n`; `fresh n` models the n-th
symbol minted by `root.create_symbol` (the debug-name strings attached in
the source are dropped: they are comments on the identifier only).
`wasmAnonymousStackValue` models `Symbol::WASM_ANONYMOUS_STACK_VALUE`, and
`crashPlaceholder` marks positions where the Rust generator itself would
panic (an `unwrap` of an empty branch list, an `unreachable` arm); such
positions are never reached for the inputs the theorems range over. -/
inductive Symbol where
  | arg (n : Nat)
  | fresh (n : Nat)
  | wasmAnonymousStackValue
  | crashPlaceholder
deriving DecidableEq

/-- `JoinPointId` wraps a symbol in the source. -/
abbrev JoinPointId := Symbol

/-- parameter ownership annotation from `crate::borrow::Ownership` -/
inductive Ownership where
  | owned
  | borrowed
deriving DecidableEq

/-- Modelled from the spec (sections 1 and 4.2): `HelperOp` of
`code_gen_help/mod.rs` (the module itself is not under `src/`); the five
specialized operations, with `DecRef` carrying the join point that the
inlined body jumps to in place of returning. -/
inductive HelperOp where
  | inc
  | dec
  | decRef (jp : JoinPointId)
  | reset
  | resetRef
deriving DecidableEq

/-- `HelperOp::is_dec` -/
def HelperOp.isDec : HelperOp → Bool
  | .dec => true
  | _ => false

/-- `HelperOp::is_decref` -/
def HelperOp.isDecref : HelperOp → Bool
  | .decRef _ => true
  | _ => false

/-- the subset of `LowLevel` intrinsics the generator emits -/
inductive LowLevelOp where
  | refCountIsUnique
  | refCountIncDataPtr
  | refCountDecDataPtr
  | ptrCast
  | and
  | numSubSaturated
  | numAdd
  | numMul
  | numGte
  | numLt
  | numShiftLeftBy
  | eq
  | listLen
deriving DecidableEq

/-- `ModifyRc` markers carried by the IR -/
inductive ModifyRc where
  | inc (structVal : Symbol) (amount : Int)
  | dec (structVal : Symbol)
  | decRef (structVal : Symbol)
deriving DecidableEq

mutual
/-- `Layout`: the canonical memory shape of a value.  The payload of
`RecursivePointer` is an interner id of the owning layout in the source;
layouts here are plain trees, so the payload is dropped (it is used only as
a type annotation on one generated binding). -/
inductive Layout where
  | builtin (b : Builtin)
  | structL (fieldLayouts : List Layout)
  | union (u : UnionLayout)
  | lambdaSet (representation : Layout)
  | recursivePointer
  | boxed (inner : Layout)

/-- `Builtin` layouts -/
inductive Builtin where
  | int (signed : Bool) (bits : Nat)
  | float (bits : Nat)
  | bool
  | decimal
  | str
  | list (elem : Layout)

/-- `UnionLayout`: the five shapes of tagged unions -/
inductive UnionLayout where
  | nonRecursive (tags : List (List Layout))
  | recursive (tags : List (List Layout))
  | nonNullableUnwrapped (fieldLayouts : List Layout)
  | nullableWrapped (nullableId : Nat) (otherTags : List (List Layout))
  | nullableUnwrapped (nullableId : Bool) (otherFields : List Layout)
end

/-- is the union shape `NonRecursive`? -/
def UnionLayout.isNonRec : UnionLayout → Bool
  | .nonRecursive _ => true
  | _ => false

/-- `Layout::BOOL` -/
def LAYOUT_BOOL : Layout := .builtin .bool

/-- `Layout::UNIT` (the empty struct) -/
def LAYOUT_UNIT : Layout := .structL []

/-- `Layout::U32` -/
def LAYOUT_U32 : Layout := .builtin (.int false 32)

/-- `Layout::OPAQUE_PTR`: an opaque pointer layout used as an annotation;
modelled as a box of unit (the exact representation does not matter, it is
only a type annotation on join-point parameters). -/
def LAYOUT_OPAQUE_PTR : Layout := .boxed (.structL [])

/-- Modelled from the spec (section 3, Invariants): `Layout::is_refcounted`
of the layout query surface (not under `src/`): `Str`, `List`, recursive
unions, `Boxed` and `RecursivePointer` are refcounted; a lambda set
delegates to its representation. -/
def Layout.isRefcounted : Layout → Bool
  | .builtin .str => true
  | .builtin (.list _) => true
  | .union u => !u.isNonRec
  | .boxed _ => true
  | .recursivePointer => true
  | .lambdaSet r => r.isRefcounted
  | _ => false

mutual
/-- Modelled from the spec (section 3, Invariants): the interner query
`contains_refcounted` (not under `src/`): additionally a struct or a
non-recursive union is refcounted iff some field is. -/
def Layout.containsRefcounted : Layout → Bool
  | .builtin .str => true
  | .builtin (.list _) => true
  | .builtin _ => false
  | .structL fields => fieldsContainRefcounted fields
  | .union (.nonRecursive tags) => tagsContainRefcounted tags
  | .union _ => true
  | .lambdaSet r => Layout.containsRefcounted r
  | .recursivePointer => true
  | .boxed _ => true

/-- any layout of the list `contains_refcounted` -/
def fieldsContainRefcounted : List Layout → Bool
  | [] => false
  | l :: ls => Layout.containsRefcounted l || fieldsContainRefcounted ls

/-- any tag of the list has a field that `contains_refcounted` -/
def tagsContainRefcounted : List (List Layout) → Bool
  | [] => false
  | t :: ts => fieldsContainRefcounted t || tagsContainRefcounted ts
end

/-- Modelled: `union_layout.tag_id_layout()` (in `mod.rs`, not under
`src/`) returns the integer layout of the tag discriminant; the exact
width is a pure annotation on generated bindings, fixed here as `U16`. -/
def UnionLayout.tagIdLayout (_ : UnionLayout) : Layout := .builtin (.int false 16)

/-- The generator's environment.  `ptrWidth` is
`root.target_info.ptr_width()` in bytes.  The functions `alignOf`,
`stackSizeOf` and `unionTailRec` model the layout-interner queries
`alignment_bytes`, `stack_size` and the analysis
`root.union_tail_recursion_fields`, none of which are under `src/`; their
results only parametrize the generated IR (numeric literals and the
choice of the tail-recursive form), so they are carried as oracles. -/
structure Root where
  ptrWidth : Nat
  alignOf : Layout → Nat
  stackSizeOf : Layout → Nat
  unionTailRec : Layout → UnionLayout → Option (List (Option Nat))

/-- `root.layout_isize` -/
def Root.layoutIsize (r : Root) : Layout := .builtin (.int true (8 * r.ptrWidth))

/-- `Layout::usize(target_info)` -/
def Root.layoutUsize (r : Root) : Layout := .builtin (.int false (8 * r.ptrWidth))

/-- Modelled from the spec (section 3, Invariants):
`allocation_alignment_bytes` is the maximum of the pointer width and the
payload alignment. -/
def Root.allocAlign (r : Root) (l : Layout) : Nat := max r.ptrWidth (r.alignOf l)

/-- the unique-refcount sentinel literal (`i32::MIN` or `i64::MIN`
depending on `root.target_info.ptr_width()`) -/
def Root.refcountOne (r : Root) : Int :=
  if r.ptrWidth = 4 then -(2 ^ 31) else -(2 ^ 63)

/-- the mutable generator context of `code_gen_help/mod.rs` (not under
`src/`): the current operation and the innermost recursive union, read
when resolving `RecursivePointer` layouts.  Modelled from the spec
(sections 4.8 and 5). -/
structure Context where
  op : HelperOp
  recursiveUnion : Option UnionLayout

/-- IR expressions used by the generator -/
inductive Expr where
  | literalInt (value : Int)
  | structAtIndex (index : Nat) (fieldLayouts : List Layout) (structVal : Symbol)
  | getTagId (structVal : Symbol) (unionLayout : UnionLayout)
  | unionAtIndex (unionLayout : UnionLayout) (tagId : Nat) (index : Nat) (structVal : Symbol)
  | lowLevel (op : LowLevelOp) (args : List Symbol)
  | callSpecialized (op : HelperOp) (layout : Layout) (args : List Symbol)
  | exprUnbox (symbol : Symbol)
  | nullPointer
  | structE (fields : List Symbol)

/-- a join-point parameter -/
structure Param where
  symbol : Symbol
  ownership : Ownership
  layout : Layout

/-- IR statements (`crate::ir::Stmt`); `BranchInfo` is always `None` in the
generator and is dropped. -/
inductive Stmt where
  | letS (sym : Symbol) (e : Expr) (layout : Layout) (next : Stmt)
  | switch (condSymbol : Symbol) (condLayout : Layout)
      (branches : List (Nat × Stmt)) (defaultBranch : Stmt) (retLayout : Layout)
  | ret (sym : Symbol)
  | join (id : JoinPointId) (parameters : List Param) (body : Stmt) (remainder : Stmt)
  | jump (id : JoinPointId) (args : List Symbol)

/-- `Stmt::if_then_else` of `ir.rs` (not under `src/`): a two-way switch on
a boolean, branch `1` is the then-branch; this exact shape also appears
written out at `refcount.rs:352` in the source. -/
def ifThenElse (cond : Symbol) (retLayout : Layout) (thenS elseS : Stmt) : Stmt :=
  .switch cond LAYOUT_BOOL [(1, thenS)] elseS retLayout

/-- `let_lowlevel` of `mod.rs` (not under `src/`): bind the result of a
low-level call, exactly as the explicit `Expr::Call(LowLevel)` lets that
appear throughout `refcount.rs`. -/
def letLowlevel (layout : Layout) (sym : Symbol) (op : LowLevelOp)
    (args : List Symbol) (next : Stmt) : Stmt :=
  .letS sym (.lowLevel op args) layout next

/-- a statement standing for a generator-side panic (`unwrap` of an empty
branch list); never produced for the inputs the theorems range over -/
def unreachableStmt : Stmt := .ret .crashPlaceholder

/-- Modelled from the spec (sections 4.1, 4.8 and 5):
`root.call_specialized_op` (in `mod.rs`, not under `src/`) returns a call
to the memoized specialized procedure for `(ctx.op, layout)`; a
`RecursivePointer` layout resolves to the recursive union recorded in the
context. -/
def callSpecializedOp (ctx : Context) (layout : Layout) (args : List Symbol) : Expr :=
  match layout with
  | .recursivePointer =>
      match ctx.recursiveUnion with
      | some u => .callSpecialized ctx.op (.union u) args
      | none => .callSpecialized ctx.op .recursivePointer args
  | _ => .callSpecialized ctx.op layout args

/-- `rc_return_stmt`: return unit, or jump to the decref join point when
the operation is an inlined `DecRef`. -/
def rcReturnStmt (ctx : Context) (n : Nat) : Stmt × Nat :=
  match ctx.op with
  | .decRef jpDecref => (.jump jpDecref [], n)
  | _ =>
      let unit := Symbol.fresh n
      (.letS unit (.structE []) LAYOUT_UNIT (.ret unit), n + 1)

/-- `refcount_args`: on `Inc` the amount argument `ARG_2` is passed
through the call stack. -/
def refcountArgs (ctx : Context) (structVal : Symbol) : List Symbol :=
  match ctx.op with
  | .inc => [structVal, Symbol.arg 2]
  | _ => [structVal]

/-- `modify_refcount`: call the relevant Zig lowlevel to modify the
refcount of `dataPtr` (with the alignment constant on `Dec`/`DecRef`). -/
def modifyRefcount (ctx : Context) (dataPtr : Symbol) (alignment : Nat)
    (following : Stmt) (n : Nat) : Stmt × Nat :=
  let zigCallResult := Symbol.fresh n
  match ctx.op with
  | .inc =>
      (.letS zigCallResult (.lowLevel .refCountIncDataPtr [dataPtr, Symbol.arg 2])
        LAYOUT_UNIT following, n + 1)
  | .dec | .decRef _ =>
      let alignmentSym := Symbol.fresh (n + 1)
      (.letS alignmentSym (.literalInt alignment) LAYOUT_U32
        (.letS zigCallResult (.lowLevel .refCountDecDataPtr [dataPtr, alignmentSym])
          LAYOUT_UNIT following), n + 2)
  | _ => (unreachableStmt, n)

/-- `rc_ptr_from_data_ptr_help`: cast the structure pointer to an integer
(optionally mask the low tag-id bits with `-ptr_width`), subtract the
pointer width, and cast back to a pointer bound to `rcPtrSym`. -/
def rcPtrFromDataPtrHelp (root : Root) (structVal rcPtrSym : Symbol)
    (maskLowerBits : Bool) (following : Stmt) (addrSym : Symbol)
    (recursionPtr : Layout) (n : Nat) : Stmt × Nat :=
  let asIntSym := if maskLowerBits then Symbol.fresh n else addrSym
  let n1 := if maskLowerBits then n + 1 else n
  let asIntStmt := fun next => Stmt.letS asIntSym (.lowLevel .ptrCast [structVal])
    root.layoutIsize next
  let maskSym := Symbol.fresh n1
  let maskStmt := fun next => Stmt.letS maskSym (.literalInt (-(root.ptrWidth : Int)))
    root.layoutIsize next
  let andStmt := fun next => Stmt.letS addrSym (.lowLevel .and [asIntSym, maskSym])
    root.layoutIsize next
  let ptrSizeSym := Symbol.fresh (n1 + 1)
  let ptrSizeStmt := fun next => Stmt.letS ptrSizeSym (.literalInt (root.ptrWidth : Int))
    root.layoutIsize next
  let rcAddrSym := Symbol.fresh (n1 + 2)
  let subStmt := fun next => Stmt.letS rcAddrSym
    (.lowLevel .numSubSaturated [addrSym, ptrSizeSym]) root.layoutUsize next
  let castStmt := fun next => Stmt.letS rcPtrSym (.lowLevel .ptrCast [rcAddrSym])
    recursionPtr next
  if maskLowerBits then
    (asIntStmt (maskStmt (andStmt (ptrSizeStmt (subStmt (castStmt following))))), n1 + 3)
  else
    (asIntStmt (ptrSizeStmt (subStmt (castStmt following))), n1 + 3)

/-- `refcount_str`: project the capacity-or-tag word (field 2, signed);
when it is nonnegative the string is big: project the element pointer
(field 0), modify its refcount with word alignment and return; otherwise
it is a small string and the body just returns. -/
def refcountStr (root : Root) (ctx : Context) (n : Nat) : Stmt × Nat :=
  let string := Symbol.arg 1
  let fieldLayouts := [LAYOUT_OPAQUE_PTR, root.layoutIsize, root.layoutIsize]
  let lastWord := Symbol.fresh n
  let zero := Symbol.fresh (n + 1)
  let isBigStr := Symbol.fresh (n + 2)
  let elements := Symbol.fresh (n + 3)
  let alignment := root.ptrWidth
  let retUnitP := rcReturnStmt ctx (n + 4)
  let modRcP := modifyRefcount ctx elements alignment retUnitP.1 retUnitP.2
  let thenBranch :=
    Stmt.letS elements (.structAtIndex 0 fieldLayouts string) root.layoutIsize modRcP.1
  let elseP := rcReturnStmt ctx modRcP.2
  let ifStmt := ifThenElse isBigStr LAYOUT_UNIT thenBranch elseP.1
  (.letS lastWord (.structAtIndex 2 fieldLayouts string) root.layoutIsize
    (.letS zero (.literalInt 0) root.layoutIsize
      (.letS isBigStr (.lowLevel .numGte [lastWord, zero]) LAYOUT_BOOL ifStmt)), elseP.2)

/-- `refcount_list_elems`: loop over the elements by address, from
`start = ptr_cast elements` to `start + length * stack_size(elem)`, each
iteration casting the address to a box, unboxing the element and calling
the specialized op on it; `following` runs when the end is reached. -/
def refcountListElems (root : Root) (ctx : Context) (elemLayout retLayout boxLayout : Layout)
    (length elements : Symbol) (following : Stmt) (n : Nat) : Stmt × Nat :=
  let start := Symbol.fresh n
  let elemSize := Symbol.fresh (n + 1)
  let listSize := Symbol.fresh (n + 2)
  let endSym := Symbol.fresh (n + 3)
  let elemsLoop := Symbol.fresh (n + 4)
  let addr := Symbol.fresh (n + 5)
  let boxPtr := Symbol.fresh (n + 6)
  let elem := Symbol.fresh (n + 7)
  let modElemUnit := Symbol.fresh (n + 8)
  let nextAddr := Symbol.fresh (n + 9)
  let isEnd := Symbol.fresh (n + 10)
  let modElemExpr := callSpecializedOp ctx elemLayout (refcountArgs ctx elem)
  let ifEndOfList := Stmt.switch isEnd LAYOUT_BOOL [(1, following)]
    (letLowlevel boxLayout boxPtr .ptrCast [addr]
      (.letS elem (.exprUnbox boxPtr) elemLayout
        (.letS modElemUnit modElemExpr LAYOUT_UNIT
          (letLowlevel root.layoutIsize nextAddr .numAdd [addr, elemSize]
            (.jump elemsLoop [nextAddr]))))) retLayout
  let joinpointLoop := Stmt.join elemsLoop [⟨addr, .owned, root.layoutIsize⟩]
    (letLowlevel LAYOUT_BOOL isEnd .numGte [addr, endSym] ifEndOfList)
    (.jump elemsLoop [start])
  (letLowlevel root.layoutIsize start .ptrCast [elements]
    (.letS elemSize (.literalInt (root.stackSizeOf elemLayout)) root.layoutIsize
      (letLowlevel root.layoutIsize listSize .numMul [length, elemSize]
        (letLowlevel root.layoutIsize endSym .numAdd [start, listSize]
          joinpointLoop))), n + 11)

/-- `refcount_list`: check for the empty list, check for a seamless slice
(`capacity < 0`), branch into the `jp_elements` join point supplying
either `capacity <<< 1` (slice) or the field-0 projection (list), then
(for `dec` of refcounted elements) loop over the elements starting from
the field-0 projection, and finally modify the refcount through the
join-point parameter. -/
def refcountList (root : Root) (ctx : Context) (elemLayout : Layout)
    (structVal : Symbol) (n : Nat) : Stmt × Nat :=
  let boxLayout := Layout.boxed elemLayout
  let len := Symbol.fresh n
  let zero := Symbol.fresh (n + 1)
  let isEmpty := Symbol.fresh (n + 2)
  let capacity := Symbol.fresh (n + 3)
  let isSlice := Symbol.fresh (n + 4)
  let jpElements := Symbol.fresh (n + 5)
  let elements := Symbol.fresh (n + 6)
  let one := Symbol.fresh (n + 7)
  let sliceElems := Symbol.fresh (n + 8)
  let listElems := Symbol.fresh (n + 9)
  let listFieldLayouts := [boxLayout, root.layoutIsize, root.layoutIsize]
  let paramElems : Param := ⟨elements, .owned, LAYOUT_OPAQUE_PTR⟩
  let sliceBranch := Stmt.letS one (.literalInt 1) root.layoutIsize
    (letLowlevel root.layoutIsize sliceElems .numShiftLeftBy [capacity, one]
      (.jump jpElements [sliceElems]))
  let listBranch :=
    Stmt.letS listElems (.structAtIndex 0 listFieldLayouts structVal) boxLayout
      (.jump jpElements [listElems])
  let switchSliceList := ifThenElse isSlice LAYOUT_UNIT sliceBranch listBranch
  let alignment := max root.ptrWidth (root.alignOf elemLayout)
  let retP := rcReturnStmt ctx (n + 10)
  let modifyListP := modifyRefcount ctx elements alignment retP.1 retP.2
  let meP :=
    if elemLayout.isRefcounted && ctx.op.isDec then
      refcountListElems root ctx elemLayout LAYOUT_UNIT boxLayout len listElems
        modifyListP.1 modifyListP.2
    else modifyListP
  let joinpointElems := Stmt.join jpElements [paramElems] meP.1 switchSliceList
  let nonEmptyBranch :=
    Stmt.letS capacity (.structAtIndex 2 listFieldLayouts structVal) root.layoutIsize
      (letLowlevel LAYOUT_BOOL isSlice .numLt [capacity, zero] joinpointElems)
  let emptyP := rcReturnStmt ctx meP.2
  let ifEmptyStmt := ifThenElse isEmpty LAYOUT_UNIT emptyP.1 nonEmptyBranch
  (letLowlevel root.layoutIsize len .listLen [structVal]
    (.letS zero (.literalInt 0) root.layoutIsize
      (letLowlevel LAYOUT_BOOL isEmpty .eq [len, zero] ifEmptyStmt)), emptyP.2)

/-- the loop body of `refcount_struct`: iterate the (already reversed)
enumerated fields, wrapping the accumulated continuation with a field
projection and a specialized call for each field that contains refcounted
data. -/
def refcountStructGo (ctx : Context) (fieldLayouts : List Layout) (structVal : Symbol) :
    List (Nat × Layout) → Stmt × Nat → Stmt × Nat
  | [], acc => acc
  | (i, fl) :: rest, acc =>
      let acc' :=
        if fl.containsRefcounted then
          let fieldVal := Symbol.fresh acc.2
          let modUnit := Symbol.fresh (acc.2 + 1)
          (Stmt.letS fieldVal (.structAtIndex i fieldLayouts structVal) fl
            (.letS modUnit (callSpecializedOp ctx fl (refcountArgs ctx fieldVal))
              LAYOUT_UNIT acc.1), acc.2 + 2)
        else acc
      refcountStructGo ctx fieldLayouts structVal rest acc'

/-- `refcount_struct` -/
def refcountStruct (root : Root) (ctx : Context) (fieldLayouts : List Layout)
    (structVal : Symbol) (n : Nat) : Stmt × Nat :=
  refcountStructGo ctx fieldLayouts structVal fieldLayouts.enum.reverse (rcReturnStmt ctx n)

/-- the loop body of `refcount_tag_fields`: like `refcountStructGo` but
projecting out of a tagged union arm. -/
def refcountTagFieldsGo (ctx : Context) (unionLayout : UnionLayout) (structVal : Symbol)
    (tagId : Nat) : List (Nat × Layout) → Stmt × Nat → Stmt × Nat
  | [], acc => acc
  | (i, fl) :: rest, acc =>
      let acc' :=
        if fl.containsRefcounted then
          let fieldVal := Symbol.fresh acc.2
          let modUnit := Symbol.fresh (acc.2 + 1)
          (Stmt.letS fieldVal (.unionAtIndex unionLayout tagId i structVal) fl
            (.letS modUnit (callSpecializedOp ctx fl (refcountArgs ctx fieldVal))
              LAYOUT_UNIT acc.1), acc.2 + 2)
        else acc
      refcountTagFieldsGo ctx unionLayout structVal tagId rest acc'

/-- `refcount_tag_fields` -/
def refcountTagFields (ctx : Context) (unionLayout : UnionLayout)
    (fieldLayouts : List (Nat × Layout)) (structVal : Symbol) (tagId : Nat)
    (following : Stmt) (n : Nat) : Stmt × Nat :=
  refcountTagFieldsGo ctx unionLayout structVal tagId fieldLayouts.reverse (following, n)

/-- the tag ids assigned to the non-null arms: the iterator
`(0..).filter(not the null id)` zipped against the tag list -/
def unionTagIds (nullId : Option Nat) (count : Nat) : List Nat :=
  (((List.range (count + 1)).filter (fun i => !(nullId == some i))).take count)

/-- the branch-building loop of `refcount_union_contents`: one branch per
arm, refcounting the arm's fields and then jumping to the
`jp_contents_modified` join point -/
def contentsBranchesGo (ctx : Context) (unionLayout : UnionLayout) (structVal : Symbol)
    (jp : JoinPointId) : List (List Layout × Nat) → Nat → List (Nat × Stmt) × Nat
  | [], n => ([], n)
  | (fls, tagId) :: rest, n =>
      let fieldsP := refcountTagFields ctx unionLayout fls.enum structVal tagId (.jump jp []) n
      let bsP := contentsBranchesGo ctx unionLayout structVal jp rest fieldsP.2
      ((tagId, fieldsP.1) :: bsP.1, bsP.2)

/-- `tag_branches.pop().unwrap()`: split off the final branch as the
switch default (the source panics when the list is empty). -/
def popLastBranch (l : List (Nat × Stmt)) : List (Nat × Stmt) × Stmt :=
  match l.getLast? with
  | some pr => (l.dropLast, pr.2)
  | none => ([], unreachableStmt)

/-- `refcount_union_contents`: a switch on the tag id whose branches
refcount each arm's fields and jump to `jp_contents_modified` (whose body
is `nextStmt`); for every shape except `NonRecursive` the switch is
guarded by a `RefCountIsUnique` test whose false branch jumps straight to
the join point. -/
def refcountUnionContents (root : Root) (ctx : Context) (unionLayout : UnionLayout)
    (tagLayouts : List (List Layout)) (nullId : Option Nat)
    (structVal tagIdSym : Symbol) (tagIdLayout : Layout) (nextStmt : Stmt)
    (n : Nat) : Stmt × Nat :=
  let jpContentsModified := Symbol.fresh n
  let nullP : List (Nat × Stmt) × Nat :=
    match nullId with
    | some id => ([(id, (rcReturnStmt ctx (n + 1)).1)], (rcReturnStmt ctx (n + 1)).2)
    | none => ([], n + 1)
  let tagBranchesP := contentsBranchesGo ctx unionLayout structVal jpContentsModified
      (tagLayouts.zip (unionTagIds nullId tagLayouts.length)) nullP.2
  let splitP := popLastBranch (nullP.1 ++ tagBranchesP.1)
  let tagIdSwitch := Stmt.switch tagIdSym tagIdLayout splitP.1 splitP.2 LAYOUT_UNIT
  match unionLayout with
  | .nonRecursive _ =>
      (.join jpContentsModified [] nextStmt tagIdSwitch, tagBranchesP.2)
  | _ =>
      let isUnique := Symbol.fresh tagBranchesP.2
      let switchWithUniqueCheck :=
        ifThenElse isUnique LAYOUT_UNIT tagIdSwitch (.jump jpContentsModified [])
      (.join jpContentsModified [] nextStmt
        (letLowlevel LAYOUT_BOOL isUnique .refCountIsUnique [structVal]
          switchWithUniqueCheck), tagBranchesP.2 + 1)

/-- `refcount_union_nonrec` -/
def refcountUnionNonrec (root : Root) (ctx : Context) (unionLayout : UnionLayout)
    (tagLayouts : List (List Layout)) (structVal : Symbol) (n : Nat) : Stmt × Nat :=
  let tagIdLayout := unionLayout.tagIdLayout
  let tagIdSym := Symbol.fresh n
  let contP := rcReturnStmt ctx (n + 1)
  let switchP := refcountUnionContents root ctx unionLayout tagLayouts none
      structVal tagIdSym tagIdLayout contP.1 contP.2
  (.letS tagIdSym (.getTagId structVal unionLayout) tagIdLayout switchP.1, switchP.2)

/-- `refcount_union_rec`: modify the union's own refcount after (for
`dec`) refcounting the contents of the current arm. -/
def refcountUnionRec (root : Root) (ctx : Context) (unionLayout : UnionLayout)
    (tagLayouts : List (List Layout)) (nullId : Option Nat) (structVal : Symbol)
    (n : Nat) : Stmt × Nat :=
  let tagIdLayout := unionLayout.tagIdLayout
  let tagIdSym := Symbol.fresh n
  let alignment := root.allocAlign (.union unionLayout)
  let retP := rcReturnStmt ctx (n + 1)
  let rcStructureP := modifyRefcount ctx structVal alignment retP.1 retP.2
  let contentsP :=
    if ctx.op.isDec then
      refcountUnionContents root ctx unionLayout tagLayouts nullId structVal tagIdSym
        tagIdLayout rcStructureP.1 rcStructureP.2
    else rcStructureP
  if ctx.op.isDecref && nullId.isNone then
    contentsP
  else
    (.letS tagIdSym (.getTagId structVal unionLayout) tagIdLayout contentsP.1,
     contentsP.2)

/-- the branch-building loop of `refcount_union_tailrec`: per arm, either
project the tail-recursive field and jump with it to `jp_modify_union`
(skipping it in the per-field refcounting), or bind a null pointer and
jump with that when the arm has no tail-recursive field. -/
def tailrecBranchesGo (ctx : Context) (unionLayout : UnionLayout) (layout : Layout)
    (current : Symbol) (jpModifyUnion : JoinPointId) :
    List ((List Layout × Option Nat) × Nat) → Nat → List (Nat × Stmt) × Nat
  | [], n => ([], n)
  | ((fls, optIdx), tagId) :: rest, n =>
      let pre : List (Nat × Layout) × Stmt × Nat :=
        match optIdx with
        | some tailIdx =>
            let filtered := fls.enum.filter (fun p => !(p.1 == tailIdx))
            match fls.get? tailIdx with
            | some fl =>
                (filtered,
                 Stmt.letS (Symbol.fresh n) (.unionAtIndex unionLayout tagId tailIdx current)
                   fl (.jump jpModifyUnion [Symbol.fresh n]), n + 1)
            | none => (filtered, unreachableStmt, n)
        | none =>
            (fls.enum,
             Stmt.letS (Symbol.fresh n) .nullPointer layout
               (.jump jpModifyUnion [Symbol.fresh n]), n + 1)
      let fieldsP :=
        refcountTagFields ctx unionLayout pre.1 current tagId pre.2.1 pre.2.2
      let bsP := tailrecBranchesGo ctx unionLayout layout current jpModifyUnion rest fieldsP.2
      ((tagId, fieldsP.1) :: bsP.1, bsP.2)

/-- `refcount_union_tailrec`: the whole body is wrapped in an outer join
point `tailrec_loop(current)`; after refcounting the non-tail fields of
the current arm the code jumps to `jp_modify_union(next_ptr)`, which
modifies the current header and then either exits (when `next_ptr` casts
to address `0`) or jumps back into the loop with `next_ptr`. -/
def refcountUnionTailrec (root : Root) (ctx : Context) (unionLayout : UnionLayout)
    (tagLayouts : List (List Layout)) (nullId : Option Nat)
    (tailrecIndices : List (Option Nat)) (initialStructure : Symbol)
    (n : Nat) : Stmt × Nat :=
  let tailrecLoop := Symbol.fresh n
  let current := Symbol.fresh (n + 1)
  let nextPtr := Symbol.fresh (n + 2)
  let layout := Layout.union unionLayout
  let tagIdLayout := unionLayout.tagIdLayout
  let tagIdSym := Symbol.fresh (n + 3)
  let nextAddr := Symbol.fresh (n + 4)
  let exitP := rcReturnStmt ctx (n + 5)
  let jumpToLoop := Stmt.jump tailrecLoop [nextPtr]
  let loopOrExit := Stmt.switch nextAddr root.layoutIsize [(0, exitP.1)] jumpToLoop LAYOUT_UNIT
  let loopOrExitBasedOnNextAddr :=
    letLowlevel root.layoutIsize nextAddr .ptrCast [nextPtr] loopOrExit
  let rcStructureP :=
    modifyRefcount ctx current (root.allocAlign layout) loopOrExitBasedOnNextAddr exitP.2
  let jpModifyUnion := Symbol.fresh rcStructureP.2
  let nullP : List (Nat × Stmt) × Nat :=
    match nullId with
    | some id =>
        ([(id, (rcReturnStmt ctx (rcStructureP.2 + 1)).1)],
         (rcReturnStmt ctx (rcStructureP.2 + 1)).2)
    | none => ([], rcStructureP.2 + 1)
  let tagBranchesP := tailrecBranchesGo ctx unionLayout layout current jpModifyUnion
      ((tagLayouts.zip tailrecIndices).zip (unionTagIds nullId tagLayouts.length)) nullP.2
  let splitP := popLastBranch (nullP.1 ++ tagBranchesP.1)
  let tagIdSwitch := Stmt.switch tagIdSym tagIdLayout splitP.1 splitP.2 LAYOUT_UNIT
  let isUnique := Symbol.fresh tagBranchesP.2
  let nullPointer := Symbol.fresh (tagBranchesP.2 + 1)
  let jumpWithNullPtr :=
    Stmt.letS nullPointer .nullPointer layout (.jump jpModifyUnion [nullPointer])
  let switchWithUniqueCheck := ifThenElse isUnique LAYOUT_UNIT tagIdSwitch jumpWithNullPtr
  let switchWithUniqueCheckAndLet :=
    letLowlevel LAYOUT_BOOL isUnique .refCountIsUnique [current] switchWithUniqueCheck
  let rcContentsThenStructure := Stmt.join jpModifyUnion [⟨nextPtr, .borrowed, layout⟩]
    rcStructureP.1 switchWithUniqueCheckAndLet
  let loopBody :=
    Stmt.letS tagIdSym (.getTagId current unionLayout) tagIdLayout rcContentsThenStructure
  let loopInit := Stmt.jump tailrecLoop [initialStructure]
  (Stmt.join tailrecLoop [⟨current, .borrowed, layout⟩] loopBody loopInit,
   tagBranchesP.2 + 2)

/-- `refcount_union`: dispatch on the union shape; the context's
`recursive_union` is saved, overridden with the current union for every
shape except `NonRecursive`, and restored before returning. -/
def refcountUnion (root : Root) (ctx : Context) (unionInLayout : Layout)
    (union : UnionLayout) (structVal : Symbol) (n : Nat) : Stmt × Nat × Context :=
  let parentRecUnion := ctx.recursiveUnion
  let ctx2 := if union.isNonRec then ctx else { ctx with recursiveUnion := some union }
  let bodyP : Stmt × Nat :=
    match union with
    | .nonRecursive tags => refcountUnionNonrec root ctx2 union tags structVal n
    | .recursive tags =>
        match root.unionTailRec unionInLayout union, ctx2.op.isDec with
        | some tailIdx, true =>
            refcountUnionTailrec root ctx2 union tags none tailIdx structVal n
        | _, _ => refcountUnionRec root ctx2 union tags none structVal n
    | .nonNullableUnwrapped fieldLayouts =>
        refcountUnionRec root ctx2 union [fieldLayouts] none structVal n
    | .nullableWrapped nullableId tags =>
        match root.unionTailRec unionInLayout union, ctx2.op.isDec with
        | some tailIdx, true =>
            refcountUnionTailrec root ctx2 union tags (some nullableId) tailIdx structVal n
        | _, _ => refcountUnionRec root ctx2 union tags (some nullableId) structVal n
    | .nullableUnwrapped nullableId otherFields =>
        match root.unionTailRec unionInLayout union, ctx2.op.isDec with
        | some tailIdx, true =>
            refcountUnionTailrec root ctx2 union [otherFields] (some (cond nullableId 1 0))
              tailIdx structVal n
        | _, _ =>
            refcountUnionRec root ctx2 union [otherFields] (some (cond nullableId 1 0))
              structVal n
  (bodyP.1, bodyP.2, { ctx2 with recursiveUnion := parentRecUnion })

/-- `refcount_boxed`: modify the outer box's refcount; on `dec` of a
refcounted inner value, first unbox and decrement the inner value behind
an `if_unique` guard. -/
def refcountBoxed (root : Root) (ctx : Context) (layout innerLayout : Layout)
    (outer : Symbol) (n : Nat) : Stmt × Nat :=
  let alignment := root.allocAlign layout
  let retP := rcReturnStmt ctx n
  let modifyOuterP := modifyRefcount ctx outer alignment retP.1 retP.2
  if innerLayout.isRefcounted && ctx.op.isDec then
    let inner := Symbol.fresh modifyOuterP.2
    let modInnerUnit := Symbol.fresh (modifyOuterP.2 + 1)
    let modInnerExpr := callSpecializedOp ctx innerLayout (refcountArgs ctx inner)
    let jp := Symbol.fresh (modifyOuterP.2 + 2)
    let isUnique := Symbol.fresh (modifyOuterP.2 + 3)
    let whenUnique := Stmt.letS inner (.exprUnbox outer) innerLayout
      (.letS modInnerUnit modInnerExpr LAYOUT_UNIT (.jump jp []))
    let ifStmt := ifThenElse isUnique LAYOUT_UNIT whenUnique (.jump jp [])
    let joined := Stmt.join jp [] modifyOuterP.1 ifStmt
    (letLowlevel root.layoutIsize isUnique .refCountIsUnique [outer] joined,
     modifyOuterP.2 + 4)
  else modifyOuterP

/-- `refcount_generic`: the per-layout dispatcher. -/
def refcountGeneric (root : Root) (ctx : Context) (layout : Layout)
    (structVal : Symbol) (n : Nat) : Stmt × Nat × Context :=
  match layout with
  | .builtin (.int _ _) | .builtin (.float _) | .builtin .bool | .builtin .decimal =>
      ((rcReturnStmt ctx n).1, (rcReturnStmt ctx n).2, ctx)
  | .builtin .str =>
      ((refcountStr root ctx n).1, (refcountStr root ctx n).2, ctx)
  | .builtin (.list elemLayout) =>
      ((refcountList root ctx elemLayout structVal n).1,
       (refcountList root ctx elemLayout structVal n).2, ctx)
  | .structL fieldLayouts =>
      ((refcountStruct root ctx fieldLayouts structVal n).1,
       (refcountStruct root ctx fieldLayouts structVal n).2, ctx)
  | .union unionLayout => refcountUnion root ctx layout unionLayout structVal n
  | .lambdaSet representation => refcountGeneric root ctx representation structVal n
  | .recursivePointer => (unreachableStmt, n, ctx)
  | .boxed innerLayout =>
      ((refcountBoxed root ctx layout innerLayout structVal n).1,
       (refcountBoxed root ctx layout innerLayout structVal n).2, ctx)

/-- the `Dec` arm of `refcount_stmt`: bind the call to the specialized
procedure and continue -/
def refcountStmtDecArm (ctx : Context) (layout : Layout) (structVal : Symbol)
    (following : Stmt) (n : Nat) : Stmt × Nat :=
  let callResultEmpty := Symbol.fresh n
  (.letS callResultEmpty (callSpecializedOp ctx layout [structVal]) LAYOUT_UNIT following,
   n + 1)

/-- `refcount_stmt`: rewrite a `ModifyRc` marker into IR.  The `DecRef` on
`Str` arm of the source re-enters `refcount_stmt` with the *same* marker
and the same `Str` layout (only `ctx.op` changes), so it never reaches a
base case; that recursion is modelled by a fuel parameter, with `none`
standing for the non-terminating run. -/
def refcountStmt (root : Root) : Nat → Context → Layout → ModifyRc → Stmt → Nat →
    Option (Stmt × Nat × Context)
  | _, ctx, layout, .inc structVal amount, following, n =>
      let amountSym := Symbol.fresh n
      let callResultEmpty := Symbol.fresh (n + 1)
      let callExpr := callSpecializedOp ctx layout [structVal, amountSym]
      some (.letS amountSym (.literalInt amount) root.layoutIsize
        (.letS callResultEmpty callExpr LAYOUT_UNIT following), n + 2, ctx)
  | _, ctx, layout, .dec structVal, following, n =>
      some ((refcountStmtDecArm ctx layout structVal following n).1,
        (refcountStmtDecArm ctx layout structVal following n).2, ctx)
  | fuel, ctx, layout, .decRef structVal, following, n =>
      match layout with
      | .builtin .str =>
          match fuel with
          | 0 => none
          | fuel' + 1 =>
              refcountStmt root fuel' { ctx with op := .dec } layout
                (.decRef structVal) following n
      | .structL _ => some (following, n, ctx)
      | .union (.nonRecursive _) => some (following, n, ctx)
      | _ =>
          match ctx.op with
          | .decRef jpDecref =>
              let g := refcountGeneric root ctx layout structVal n
              some (.join jpDecref [] following g.1, g.2.1, g.2.2)
          | _ => some (unreachableStmt, n, ctx)

/-- the tag layouts and null id extracted from a union shape at the top of
`refcount_reset_proc_body` -/
def resetTagLayouts (unionLayout : UnionLayout) : List (List Layout) × Option Nat :=
  match unionLayout with
  | .nonRecursive tags => (tags, none)
  | .recursive tags => (tags, none)
  | .nonNullableUnwrapped fieldLayouts => ([fieldLayouts], none)
  | .nullableWrapped nullableId tags => (tags, some nullableId)
  | .nullableUnwrapped nullableId otherFields =>
      ([otherFields], some (cond nullableId 1 0))

/-- the shared not-unique branch of `reset` and `resetref`: call the
specialized `dec` on the structure and return a null pointer -/
def resetElseStmt (ctx' : Context) (layout : Layout) (structVal : Symbol)
    (n : Nat) : Stmt :=
  let decrementUnit := Symbol.fresh n
  let nullSym := Symbol.fresh (n + 1)
  Stmt.letS decrementUnit (callSpecializedOp ctx' layout [structVal]) LAYOUT_UNIT
    (.letS nullSym .nullPointer layout (.ret nullSym))

/-- `refcount_reset_proc_body`: load the refcount through the (unmasked)
address `ptr_cast x - ptr_width`, compare it with the unique sentinel, and
either decrement the children (with `op = Dec` and `recursive_union` set)
and return the address, or call the specialized `dec` and return null. -/
def refcountResetProcBody (root : Root) (ctx : Context) (layout : Layout)
    (structVal : Symbol) (n : Nat) : Stmt × Nat :=
  let rcPtr := Symbol.fresh n
  let rc := Symbol.fresh (n + 1)
  let refcount1 := Symbol.fresh (n + 2)
  let isUnique := Symbol.fresh (n + 3)
  let addr := Symbol.fresh (n + 4)
  match layout with
  | .union unionLayout =>
      let ctx' : Context := { op := .dec, recursiveUnion := some unionLayout }
      let recursionPtr := Layout.recursivePointer
      let tagP := resetTagLayouts unionLayout
      let tagIdLayout := unionLayout.tagIdLayout
      let tagIdSym := Symbol.fresh (n + 5)
      let contentsP := refcountUnionContents root ctx' unionLayout tagP.1
          tagP.2 structVal tagIdSym tagIdLayout (.ret addr) (n + 6)
      let thenStmt :=
        Stmt.letS tagIdSym (.getTagId structVal unionLayout) tagIdLayout contentsP.1
      let elseStmt := resetElseStmt ctx' layout structVal contentsP.2
      let ifStmt := Stmt.switch isUnique LAYOUT_BOOL [(1, thenStmt)] elseStmt layout
      let isUniqueStmt := letLowlevel LAYOUT_BOOL isUnique .eq [rc, refcount1] ifStmt
      let refcount1Stmt :=
        Stmt.letS refcount1 (.literalInt root.refcountOne) root.layoutIsize isUniqueStmt
      let rcStmt := Stmt.letS rc (.exprUnbox rcPtr) root.layoutIsize refcount1Stmt
      -- the source hardcodes `mask_lower_bits = false` here (with a stale
      -- comment about boxes), so the tag-id bits are never masked off
      let maskLowerBits := false
      rcPtrFromDataPtrHelp root structVal rcPtr maskLowerBits rcStmt addr recursionPtr
        (contentsP.2 + 2)
  | _ => (unreachableStmt, n)

/-- `refcount_resetref_proc_body`: identical to `reset` except that the
unique branch returns the address immediately, with no child decrement. -/
def refcountResetRefProcBody (root : Root) (ctx : Context) (layout : Layout)
    (structVal : Symbol) (n : Nat) : Stmt × Nat :=
  let rcPtr := Symbol.fresh n
  let rc := Symbol.fresh (n + 1)
  let refcount1 := Symbol.fresh (n + 2)
  let isUnique := Symbol.fresh (n + 3)
  let addr := Symbol.fresh (n + 4)
  match layout with
  | .union unionLayout =>
      let ctx' : Context := { op := .dec, recursiveUnion := some unionLayout }
      let recursionPtr := Layout.recursivePointer
      let thenStmt := Stmt.ret addr
      let elseStmt := resetElseStmt ctx' layout structVal (n + 5)
      let ifStmt := ifThenElse isUnique layout thenStmt elseStmt
      let isUniqueStmt := letLowlevel LAYOUT_BOOL isUnique .eq [rc, refcount1] ifStmt
      let refcount1Stmt :=
        Stmt.letS refcount1 (.literalInt root.refcountOne) root.layoutIsize isUniqueStmt
      let rcStmt := Stmt.letS rc (.exprUnbox rcPtr) root.layoutIsize refcount1Stmt
      let maskLowerBits := false
      rcPtrFromDataPtrHelp root structVal rcPtr maskLowerBits rcStmt addr recursionPtr
        (n + 7)
  | _ => (unreachableStmt, n)

/-! ### Syntactic analyses of the generated IR

These walk a generated `Stmt` and report which expressions are bound
anywhere inside it (including inside all switch branches and join-point
bodies).  They underpin the statements of the theorems: "performs no field
projection", "the only refcount-modify target is ...", and so on. -/

mutual
/-- does any `Let` anywhere in the statement bind an expression satisfying
`p`? -/
def Stmt.anyLet (p : Expr → Bool) : Stmt → Bool
  | .letS _ e _ next => p e || Stmt.anyLet p next
  | .switch _ _ branches defaultBranch _ =>
      branchesAnyLet p branches || Stmt.anyLet p defaultBranch
  | .ret _ => false
  | .join _ _ body remainder => Stmt.anyLet p body || Stmt.anyLet p remainder
  | .jump _ _ => false

/-- `Stmt.anyLet` over a branch list -/
def branchesAnyLet (p : Expr → Bool) : List (Nat × Stmt) → Bool
  | [] => false
  | (_, s) :: rest => Stmt.anyLet p s || branchesAnyLet p rest
end

mutual
/-- every `Let` binding in the statement, in preorder -/
def Stmt.letsList : Stmt → List (Symbol × Expr)
  | .letS sym e _ next => (sym, e) :: Stmt.letsList next
  | .switch _ _ branches defaultBranch _ =>
      branchesLetsList branches ++ Stmt.letsList defaultBranch
  | .ret _ => []
  | .join _ _ body remainder => Stmt.letsList body ++ Stmt.letsList remainder
  | .jump _ _ => []

/-- `Stmt.letsList` over a branch list -/
def branchesLetsList : List (Nat × Stmt) → List (Symbol × Expr)
  | [] => []
  | (_, s) :: rest => Stmt.letsList s ++ branchesLetsList rest
end

mutual
/-- does the statement contain a join point (a loop or merge point)? -/
def Stmt.hasJoin : Stmt → Bool
  | .letS _ _ _ next => Stmt.hasJoin next
  | .switch _ _ branches defaultBranch _ =>
      branchesHaveJoin branches || Stmt.hasJoin defaultBranch
  | .ret _ => false
  | .join _ _ _ _ => true
  | .jump _ _ => false

/-- `Stmt.hasJoin` over a branch list -/
def branchesHaveJoin : List (Nat × Stmt) → Bool
  | [] => false
  | (_, s) :: rest => Stmt.hasJoin s || branchesHaveJoin rest
end

/-- the first binding of symbol `x` in the statement, if any -/
def Stmt.findBinding (s : Stmt) (x : Symbol) : Option Expr :=
  (s.letsList.find? (fun pr => pr.1 == x)).map (fun pr => pr.2)

/-- is the expression a call to `RefCountIncDataPtr` or
`RefCountDecDataPtr` (the runtime refcount-modify intrinsics)? -/
def Expr.isModifyRcCall : Expr → Bool
  | .lowLevel .refCountIncDataPtr _ => true
  | .lowLevel .refCountDecDataPtr _ => true
  | _ => false

/-- the data pointer passed to a refcount-modify intrinsic -/
def Expr.modifyRcTarget : Expr → Option Symbol
  | .lowLevel .refCountIncDataPtr args => args.head?
  | .lowLevel .refCountDecDataPtr args => args.head?
  | _ => none

/-- all data pointers passed to refcount-modify intrinsics inside the
statement -/
def Stmt.modifyRcTargets (s : Stmt) : List Symbol :=
  s.letsList.filterMap (fun pr => Expr.modifyRcTarget pr.2)

/-- is the expression a low-level call with the given operation? -/
def Expr.usesOp (op : LowLevelOp) : Expr → Bool
  | .lowLevel opb _ => opb == op
  | _ => false

/-- does the statement bind a low-level call with the given operation? -/
def Stmt.usesLowLevel (s : Stmt) (op : LowLevelOp) : Bool :=
  s.anyLet (Expr.usesOp op)

/-- is the expression a field projection (out of a struct or a union
arm)? -/
def Expr.isProjection : Expr → Bool
  | .structAtIndex _ _ _ => true
  | .unionAtIndex _ _ _ _ => true
  | _ => false

/-- is the expression a call to a specialized refcount procedure? -/
def Expr.isCallSpec : Expr → Bool
  | .callSpecialized _ _ _ => true
  | _ => false

/-- is the expression an unboxing (heap load)? -/
def Expr.isUnboxE : Expr → Bool
  | .exprUnbox _ => true
  | _ => false

/-- is the expression a projection of field 0? -/
def Expr.isField0Proj : Expr → Bool
  | .structAtIndex 0 _ _ => true
  | _ => false

/-- does the expression touch the heap or descend into children: a
projection, a specialized call, an unboxing, or a refcount modify? -/
def Expr.touchesData (e : Expr) : Bool :=
  e.isProjection || e.isCallSpec || e.isUnboxE || e.isModifyRcCall

/-- is the expression a specialized call whose target layout is a
recursive union or a recursive pointer (a potential self-call)? -/
def Expr.isRecUnionCall : Expr → Bool
  | .callSpecialized _ (.union u) _ => !u.isNonRec
  | .callSpecialized _ .recursivePointer _ => true
  | _ => false

/-- is the expression a specialized call with an operation other than
`Dec`? -/
def Expr.isCallNotDec : Expr → Bool
  | .callSpecialized op _ _ => !op.isDec
  | _ => false

/-- is the layout a recursive union or a recursive pointer (the layouts
whose specialized call would re-enter the union being generated)? -/
def Layout.isRecursiveish : Layout → Bool
  | .recursivePointer => true
  | .union u => !u.isNonRec
  | _ => false

end Roc

namespace Wasm

/-! ### The WebAssembly function builder
(`compiler/gen_wasm/src/function_builder.rs`).

Only the state the claims speak about is carried: the code byte buffer and
the virtual-machine stack simulation.  Floating point inputs of
`f32_const` / `f64_const` enter as their IEEE bit patterns (`x.to_bits()`
in the source); bytes are `Nat`s below 256.  The opcode constants come
from `opcodes.rs`, which is not under `src/`; they are the standard wasm
opcodes and their exact values play no role in the claims. -/

def CALL : Nat := 0x10
def I32CONST : Nat := 0x41
def I64CONST : Nat := 0x42
def F32CONST : Nat := 0x43
def F64CONST : Nat := 0x44

/-- the function builder state used by the instruction methods -/
structure FunctionBuilder where
  code : List Nat
  vmStack : List Roc.Symbol

/-- the LEB128 loop of `inst_imm32` / `i64_const` / `inst_mem`:
`while value >= 0x80 { push(0x80 | (value & 0x7f)); value >>= 7 }` followed
by a final `push(value)` -/
def lebU (v : Nat) : List Nat :=
  if h : 0x80 ≤ v then (0x80 ||| (v &&& 0x7f)) :: lebU (v >>> 7) else [v]
termination_by v
decreasing_by
  simp only [Nat.shiftRight_eq_div_pow]
  exact Nat.div_lt_self (by omega) (by norm_num)

/-- the little-endian byte loop of `f32_const` / `f64_const`:
`for _ in 0..k { push(value & 0xff); value >>= 8 }` -/
def leBytes : Nat → Nat → List Nat
  | 0, _ => []
  | k + 1, v => (v &&& 0xff) :: leBytes k (v >>> 8)

/-- `inst`: emit an opcode and simulate the VM stack effect (`truncate`
then optional push of the anonymous stack value) -/
def inst (fb : FunctionBuilder) (pops : Nat) (push : Bool) (opcode : Nat) :
    FunctionBuilder :=
  { code := fb.code ++ [opcode],
    vmStack := fb.vmStack.take (fb.vmStack.length - pops) ++
      (if push then [Roc.Symbol.wasmAnonymousStackValue] else []) }

/-- `inst_imm8` -/
def instImm8 (fb : FunctionBuilder) (pops : Nat) (push : Bool) (opcode : Nat)
    (immediate : Nat) : FunctionBuilder :=
  let fb1 := inst fb pops push opcode
  { fb1 with code := fb1.code ++ [immediate] }

/-- `inst_imm32`: opcode then the immediate in unsigned LEB128 -/
def instImm32 (fb : FunctionBuilder) (pops : Nat) (push : Bool) (opcode : Nat)
    (immediate : Nat) : FunctionBuilder :=
  let fb1 := inst fb pops push opcode
  { fb1 with code := fb1.code ++ lebU immediate }

/-- `inst_mem`: opcode, alignment byte, then the offset in unsigned
LEB128 -/
def instMem (fb : FunctionBuilder) (pops : Nat) (push : Bool) (opcode : Nat)
    (align : Nat) (offset : Nat) : FunctionBuilder :=
  let fb1 := inst fb pops push opcode
  { fb1 with code := fb1.code ++ [align] ++ lebU offset }

/-- `call`: truncate the VM stack, optionally push the anonymous result,
and push the `CALL` opcode.  Note that the source never appends the
`functionIndex` immediate to the code buffer (it is used only in the
panic message of the stack-depth check). -/
def call (fb : FunctionBuilder) (functionIndex : Nat) (pops : Nat) (push : Bool) :
    FunctionBuilder :=
  { code := fb.code ++ [CALL],
    vmStack := fb.vmStack.take (fb.vmStack.length - pops) ++
      (if push then [Roc.Symbol.wasmAnonymousStackValue] else []) }

/-- `i32_const`: the `i32` is reinterpreted `as u32` and LEB128-encoded
unsigned; `bits` is that `u32` value -/
def i32Const (fb : FunctionBuilder) (bits : Nat) : FunctionBuilder :=
  instImm32 fb 0 true I32CONST bits

/-- `i64_const`: same loop on the value `as u64` -/
def i64Const (fb : FunctionBuilder) (bits : Nat) : FunctionBuilder :=
  let fb1 := inst fb 0 true I64CONST
  { fb1 with code := fb1.code ++ lebU bits }

/-- `f32_const`: raw bit pattern, 4 bytes little-endian, no LEB -/
def f32Const (fb : FunctionBuilder) (bits : Nat) : FunctionBuilder :=
  let fb1 := inst fb 0 true F32CONST
  { fb1 with code := fb1.code ++ leBytes 4 bits }

/-- `f64_const`: raw bit pattern, 8 bytes little-endian, no LEB -/
def f64Const (fb : FunctionBuilder) (bits : Nat) : FunctionBuilder :=
  let fb1 := inst fb 0 true F64CONST
  { fb1 with code := fb1.code ++ leBytes 8 bits }

/-- decode an unsigned LEB128 byte list: 7 payload bits per byte,
least-significant group first -/
def ulebDecode : List Nat → Nat
  | [] => 0
  | b :: rest => (b &&& 0x7f) + 128 * ulebDecode rest

end Wasm

namespace Roc

/-- layouts for which `refcount_stmt` inlines `DecRef` (everything except
`Str`, structs and non-recursive unions) -/
def Layout.decrefInlines : Layout → Bool
  | .builtin .str => false
  | .structL _ => false
  | .union (.nonRecursive _) => false
  | _ => true

/-- the operations the refcount body generators are invoked with (`Reset`
and `ResetRef` never reach `refcount_generic`; the reset bodies switch the
context to `Dec` first) -/
def HelperOp.isRcOp : HelperOp → Bool
  | .inc => true
  | .dec => true
  | .decRef _ => true
  | _ => false

/-- a projection, specialized call, or unbox: the expressions that read a
value's fields or descend into its children -/
def Expr.projCallOrUnbox (e : Expr) : Bool :=
  e.isProjection || e.isCallSpec || e.isUnboxE

/-- is the statement an outer loop: a join point whose remainder
immediately jumps into it? -/
def Stmt.isLoopForm : Stmt → Bool
  | .join _ _ _ (.jump _ _) => true
  | _ => false

/-- peel the common prologue of `reset` / `resetref` (pointer-to-integer
cast, refcount-address arithmetic, refcount load, sentinel comparison)
down to the uniqueness switch, returning the unique branch and the
default branch -/
def resetBranches : Stmt → Option (Stmt × Stmt)
  | .letS _ _ _ (.letS _ _ _ (.letS _ _ _ (.letS _ _ _ (.letS _ _ _ (.letS _ _ _
      (.letS _ _ _ (.switch _ _ [(1, t)] e _))))))) => some (t, e)
  | _ => none

/-- the `[box elem, isize, isize]` struct view of a list value -/
def listFieldLayoutsOf (root : Root) (elemLayout : Layout) : List Layout :=
  [.boxed elemLayout, root.layoutIsize, root.layoutIsize]

/-- the `[opaque ptr, isize, isize]` struct view of a string value -/
def strFieldLayoutsOf (root : Root) : List Layout :=
  [LAYOUT_OPAQUE_PTR, root.layoutIsize, root.layoutIsize]

/-- a concrete 64-bit environment with constant interner oracles, used by
the concrete witnesses and counterexamples -/
def root64 : Root :=
  { ptrWidth := 8, alignOf := fun _ => 8, stackSizeOf := fun _ => 8,
    unionTailRec := fun _ _ => none }

/-- a `Dec` context with no enclosing recursive union -/
def ctxDec : Context := { op := .dec, recursiveUnion := none }

/-- an `Inc` context with no enclosing recursive union -/
def ctxInc : Context := { op := .inc, recursiveUnion := none }

/-- a two-arm recursive union, both arms holding a string; at runtime its
tag id is packed into the low bits of the data pointer -/
def unionTwoStr : UnionLayout := .recursive [[.builtin .str], [.builtin .str]]

/-- a cons-cell union: a single arm `(i64, recursive tail)` with the tail
at field index 1 -/
def consUnion : UnionLayout := .recursive [[.builtin (.int true 64), .recursivePointer]]

/-- `root64` with the borrow analysis reporting a tail-recursive field at
index 1 of the single arm -/
def rootCons : Root := { root64 with unionTailRec := fun _ _ => some [some 1] }

/-- the tail of the list body: modify the refcount through the join-point
parameter `elements` (symbol `n + 6`) with alignment
`max(word, align(elem))`, then return -/
def c1ModifyTail (root : Root) (ctx : Context) (elemLayout : Layout) (n : Nat) :
    Stmt × Nat :=
  modifyRefcount ctx (.fresh (n + 6)) (max root.ptrWidth (root.alignOf elemLayout))
    (rcReturnStmt ctx (n + 10)).1 (rcReturnStmt ctx (n + 10)).2

/-- Amended C1: the shape of the generated list-refcount body.  The
`jp_elements` join point receives the element pointer: the seamless-slice
branch computes `capacity <<< 1` (the allocation base recovered from the
capacity word) and jumps with it, the non-slice branch jumps with the
field-0 projection; the refcount modification targets exactly the join
parameter, and the element loop (dec of refcounted elements) starts from
the field-0 pointer with `len` as its count. -/
def C1Prop (root : Root) (ctx : Context) (elemLayout : Layout) (x : Symbol)
    (n : Nat) : Prop :=
  ∃ joinBody nf k,
    refcountList root ctx elemLayout x n =
      (letLowlevel root.layoutIsize (.fresh n) .listLen [x]
        (Stmt.letS (.fresh (n + 1)) (.literalInt 0) root.layoutIsize
          (letLowlevel LAYOUT_BOOL (.fresh (n + 2)) .eq [.fresh n, .fresh (n + 1)]
            (ifThenElse (.fresh (n + 2)) LAYOUT_UNIT (rcReturnStmt ctx k).1
              (Stmt.letS (.fresh (n + 3))
                  (.structAtIndex 2 (listFieldLayoutsOf root elemLayout) x)
                  root.layoutIsize
                (letLowlevel LAYOUT_BOOL (.fresh (n + 4)) .numLt
                    [.fresh (n + 3), .fresh (n + 1)]
                  (Stmt.join (.fresh (n + 5))
                      [⟨.fresh (n + 6), .owned, LAYOUT_OPAQUE_PTR⟩] joinBody
                    (ifThenElse (.fresh (n + 4)) LAYOUT_UNIT
                      (Stmt.letS (.fresh (n + 7)) (.literalInt 1) root.layoutIsize
                        (letLowlevel root.layoutIsize (.fresh (n + 8)) .numShiftLeftBy
                            [.fresh (n + 3), .fresh (n + 7)]
                          (.jump (.fresh (n + 5)) [.fresh (n + 8)])))
                      (Stmt.letS (.fresh (n + 9))
                          (.structAtIndex 0 (listFieldLayoutsOf root elemLayout) x)
                          (.boxed elemLayout)
                        (.jump (.fresh (n + 5)) [.fresh (n + 9)]))))))))), nf) ∧
    Stmt.modifyRcTargets joinBody = [.fresh (n + 6)] ∧
    (elemLayout.isRefcounted = true → ctx.op.isDec = true →
      joinBody = (refcountListElems root ctx elemLayout LAYOUT_UNIT (.boxed elemLayout)
        (.fresh n) (.fresh (n + 9)) (c1ModifyTail root ctx elemLayout n).1
        (c1ModifyTail root ctx elemLayout n).2).1) ∧
    (elemLayout.isRefcounted = false ∨ ctx.op.isDec = false →
      joinBody = (c1ModifyTail root ctx elemLayout n).1)

/-- C7: the shape of the generated string-refcount body: project word 2
(signed), test it against zero; the big branch projects field 0, modifies
the refcount through it with word alignment and returns unit; the small
branch returns unit touching nothing. -/
def C7Prop (root : Root) (ctx : Context) (n : Nat) : Prop :=
  ∃ bigTail smallBranch nf,
    refcountStr root ctx n =
      (Stmt.letS (.fresh n) (.structAtIndex 2 (strFieldLayoutsOf root) (.arg 1))
          root.layoutIsize
        (Stmt.letS (.fresh (n + 1)) (.literalInt 0) root.layoutIsize
          (Stmt.letS (.fresh (n + 2)) (.lowLevel .numGte [.fresh n, .fresh (n + 1)])
              LAYOUT_BOOL
            (ifThenElse (.fresh (n + 2)) LAYOUT_UNIT
              (Stmt.letS (.fresh (n + 3))
                  (.structAtIndex 0 (strFieldLayoutsOf root) (.arg 1))
                  root.layoutIsize bigTail)
              smallBranch))), nf) ∧
    bigTail = (modifyRefcount ctx (.fresh (n + 3)) root.ptrWidth
      (Stmt.letS (.fresh (n + 4)) (.structE []) LAYOUT_UNIT (.ret (.fresh (n + 4))))
      (n + 5)).1 ∧
    Stmt.modifyRcTargets bigTail = [.fresh (n + 3)] ∧
    (∃ u, smallBranch = Stmt.letS u (.structE []) LAYOUT_UNIT (.ret u)) ∧
    Stmt.anyLet Expr.touchesData smallBranch = false

/-- C8: the generated list body first computes `len`, compares it with
zero, and the empty branch is the bare return statement: no projection, no
call, no unbox, no refcount modification, no loop. -/
def C8Prop (root : Root) (ctx : Context) (elemLayout : Layout) (x : Symbol)
    (n : Nat) : Prop :=
  ∃ nonEmptyBranch nf k,
    refcountList root ctx elemLayout x n =
      (letLowlevel root.layoutIsize (.fresh n) .listLen [x]
        (Stmt.letS (.fresh (n + 1)) (.literalInt 0) root.layoutIsize
          (letLowlevel LAYOUT_BOOL (.fresh (n + 2)) .eq [.fresh n, .fresh (n + 1)]
            (ifThenElse (.fresh (n + 2)) LAYOUT_UNIT (rcReturnStmt ctx k).1
              nonEmptyBranch))), nf) ∧
    Stmt.anyLet Expr.touchesData (rcReturnStmt ctx k).1 = false ∧
    Stmt.hasJoin (rcReturnStmt ctx k).1 = false

/-- C10: `refcount_union` restores the context; for every shape other than
`NonRecursive` the body is the one synthesized under the context whose
`recursive_union` is overridden with the current union, and for
`NonRecursive` the body is synthesized under the unchanged context. -/
def C10Prop (root : Root) (ctx : Context) (uIn : Layout) (u : UnionLayout)
    (x : Symbol) (n : Nat) : Prop :=
  ((refcountUnion root ctx uIn u x n).2.2 = ctx) ∧
  (u.isNonRec = false →
    refcountUnion root ctx uIn u x n =
      ((refcountUnion root { ctx with recursiveUnion := some u } uIn u x n).1,
       (refcountUnion root { ctx with recursiveUnion := some u } uIn u x n).2.1,
       ctx)) ∧
  (∀ tags, u = .nonRecursive tags →
    refcountUnion root ctx uIn u x n =
      ((refcountUnionNonrec root ctx u tags x n).1,
       (refcountUnionNonrec root ctx u tags x n).2, ctx))

/-- the join-point body of the recursive (non-tail) union form: modify the
structure's refcount and return -/
def c4Modify (root : Root) (ctx : Context) (u : UnionLayout) (x : Symbol)
    (n : Nat) : Stmt :=
  (modifyRefcount ctx x (root.allocAlign (.union u)) (rcReturnStmt ctx (n + 1)).1
    (rcReturnStmt ctx (n + 1)).2).1

/-- the join-point body of the tail-recursive union form: modify the
current node's refcount, cast `next_ptr` to an address, and switch: on
address `0` (a null `next_ptr`) take the bare return that terminates the
loop, otherwise jump back into `tailrec_loop` with `next_ptr` -/
def c4ModifyTailrec (root : Root) (ctx : Context) (u : UnionLayout) (n : Nat) : Stmt :=
  (modifyRefcount ctx (.fresh (n + 1)) (root.allocAlign (.union u))
    (letLowlevel root.layoutIsize (.fresh (n + 4)) .ptrCast [.fresh (n + 2)]
      (Stmt.switch (.fresh (n + 4)) root.layoutIsize
        [(0, (rcReturnStmt ctx (n + 5)).1)]
        (.jump (.fresh n) [.fresh (n + 2)]) LAYOUT_UNIT))
    (rcReturnStmt ctx (n + 5)).2).1

/-- C3: both `reset` and `resetref` branch on uniqueness; the not-unique
branch calls the specialized `dec` on the structure and returns null; the
unique branch of `reset` reads the tag id and decrements the children
(every specialized call inside carries op `Dec`) before returning the
address, while the unique branch of `resetref` returns the address
directly, touching nothing. -/
def C3Prop (root : Root) (ctx : Context) (u : UnionLayout) (x : Symbol)
    (n : Nat) : Prop :=
  ∃ resetThen k1,
    resetBranches (refcountResetProcBody root ctx (.union u) x n).1
      = some (Stmt.letS (.fresh (n + 5)) (.getTagId x u) u.tagIdLayout resetThen,
              Stmt.letS (.fresh k1) (.callSpecialized .dec (.union u) [x]) LAYOUT_UNIT
                (.letS (.fresh (k1 + 1)) .nullPointer (.union u)
                  (.ret (.fresh (k1 + 1))))) ∧
    resetThen = (refcountUnionContents root { op := .dec, recursiveUnion := some u } u
        (resetTagLayouts u).1 (resetTagLayouts u).2 x (.fresh (n + 5)) u.tagIdLayout
        (.ret (.fresh (n + 4))) (n + 6)).1 ∧
    Stmt.anyLet Expr.isCallNotDec resetThen = false ∧
    resetBranches (refcountResetRefProcBody root ctx (.union u) x n).1
      = some (.ret (.fresh (n + 4)),
              Stmt.letS (.fresh (n + 5)) (.callSpecialized .dec (.union u) [x])
                  LAYOUT_UNIT
                (.letS (.fresh (n + 6)) .nullPointer (.union u)
                  (.ret (.fresh (n + 6))))) ∧
    Stmt.anyLet Expr.touchesData (Stmt.ret (.fresh (n + 4))) = false

end Roc

/-! ### Support lemmas for the WebAssembly encoders -/

namespace Wasm

theorem and_127_eq_mod (v : Nat) : v &&& 127 = v % 128 := by
  have h := Nat.and_pow_two_sub_one_eq_mod v 7
  norm_num at h
  exact h

theorem or_128_eq_add {y : Nat} (hy : y < 128) : 128 ||| y = 128 + y := by
  have h := Nat.mul_add_lt_is_or (i := 7) (b := y) (by norm_num [hy]) 1
  norm_num at h
  omega

theorem lebU_ne_nil (v : Nat) : lebU v ≠ [] := by
  rw [lebU]
  by_cases h : 0x80 ≤ v <;> simp [h]

theorem shiftRight_7_eq (v : Nat) : v >>> 7 = v / 128 := by
  rw [Nat.shiftRight_eq_div_pow]

/-- the LEB128 loop is a correct unsigned LEB128 encoder: every byte is
below 256, every byte except the last carries the continuation bit 0x80,
the last byte does not, and decoding returns the input value -/
theorem lebU_spec (v : Nat) :
    (lebU v).all (fun b => decide (b < 256)) = true ∧
    (lebU v).dropLast.all (fun b => decide (0x80 ≤ b)) = true ∧
    (lebU v).getLast?.all (fun b => decide (b < 0x80)) = true ∧
    ulebDecode (lebU v) = v := by
  induction v using Nat.strong_induction_on with
  | _ v ih =>
    by_cases h : 0x80 ≤ v
    · have hlt : v >>> 7 < v := by
        rw [shiftRight_7_eq]
        exact Nat.div_lt_self (by omega) (by norm_num)
      obtain ⟨ihall, ihdrop, ihlast, ihdec⟩ := ih (v >>> 7) hlt
      have hb0 : (0x80 ||| (v &&& 0x7f)) = 128 + v % 128 := by
        rw [and_127_eq_mod]
        exact or_128_eq_add (Nat.mod_lt v (by norm_num))
      have hv : lebU v = (0x80 ||| (v &&& 0x7f)) :: lebU (v >>> 7) := by
        rw [lebU, dif_pos h]
      obtain ⟨c, cs, hcs⟩ : ∃ c cs, lebU (v >>> 7) = c :: cs := by
        cases hr : lebU (v >>> 7) with
        | nil => exact absurd hr (lebU_ne_nil _)
        | cons c cs => exact ⟨c, cs, rfl⟩
      refine ⟨?_, ?_, ?_, ?_⟩
      · rw [hv, hcs]
        rw [hcs] at ihall
        simp only [List.all_cons, Bool.and_eq_true, decide_eq_true_eq] at ihall ⊢
        exact ⟨by omega, ihall⟩
      · rw [hv, hcs]
        rw [hcs] at ihdrop
        have hdl : ((0x80 ||| (v &&& 0x7f)) :: c :: cs).dropLast
            = (0x80 ||| (v &&& 0x7f)) :: (c :: cs).dropLast := rfl
        rw [hdl]
        simp only [List.all_cons, Bool.and_eq_true, decide_eq_true_eq] at ihdrop ⊢
        exact ⟨by omega, ihdrop⟩
      · rw [hv, hcs]
        rw [hcs] at ihlast
        simpa only [List.getLast?_cons_cons] using ihlast
      · rw [hv, hb0]
        simp only [ulebDecode]
        rw [ihdec, and_127_eq_mod, shiftRight_7_eq]
        omega
    · rw [lebU, dif_neg h]
      refine ⟨by simp; omega, by simp, by simp; omega, ?_⟩
      simp only [ulebDecode, and_127_eq_mod]
      omega

theorem leBytes_four (v : Nat) :
    leBytes 4 v = [v % 256, v / 2 ^ 8 % 256, v / 2 ^ 16 % 256, v / 2 ^ 24 % 256] := by
  have hand : ∀ w : Nat, w &&& 255 = w % 256 := fun w => by
    have h := Nat.and_pow_two_sub_one_eq_mod w 8
    norm_num at h
    exact h
  simp only [leBytes, Nat.shiftRight_eq_div_pow, hand, Nat.div_div_eq_div_mul]
  norm_num

theorem leBytes_eight (v : Nat) :
    leBytes 8 v = [v % 256, v / 2 ^ 8 % 256, v / 2 ^ 16 % 256, v / 2 ^ 24 % 256,
      v / 2 ^ 32 % 256, v / 2 ^ 40 % 256, v / 2 ^ 48 % 256, v / 2 ^ 56 % 256] := by
  have hand : ∀ w : Nat, w &&& 255 = w % 256 := fun w => by
    have h := Nat.and_pow_two_sub_one_eq_mod w 8
    norm_num at h
    exact h
  simp only [leBytes, Nat.shiftRight_eq_div_pow, hand, Nat.div_div_eq_div_mul]
  norm_num

end Wasm

/-! ### Claim theorems -/

namespace Roc

/-- C7: the synthesized Str refcount procedure projects word 2 of the
string as a signed integer; when it is nonnegative (big string) it
projects the field-0 pointer, modifies the refcount through it with word
alignment and returns unit, and when it is negative (small string) it
returns unit performing no memory access outside the value itself. -/
theorem c7_str_refcount (root : Root) (ctx : Context) (n : Nat)
    (h : ctx.op = .inc ∨ ctx.op = .dec) : C7Prop root ctx n := by
  obtain ⟨op, ru⟩ := ctx
  dsimp only at h
  rcases h with h | h <;> subst h <;>
    exact ⟨_, _, _, rfl, rfl, rfl, ⟨_, rfl⟩, rfl⟩

/-- witness for C7 at a concrete input (`Dec`, 64-bit environment) -/
theorem c7_str_refcount_witness : C7Prop root64 ctxDec 0 :=
  c7_str_refcount root64 ctxDec 0 (Or.inr rfl)

/-- C8: for every list layout and every operation, the synthesized body
first computes `len = list_len(x)` and, when `len == 0`, immediately takes
the bare-return branch: no capacity read, no element loop, no header
modification. -/
theorem c8_list_empty_skip (root : Root) (ctx : Context) (elemLayout : Layout)
    (x : Symbol) (n : Nat) : C8Prop root ctx elemLayout x n := by
  obtain ⟨op, ru⟩ := ctx
  cases op <;> exact ⟨_, _, _, rfl, rfl, rfl⟩

/-- C10: `refcount_union` leaves the context's `recursive_union` equal to
its value at entry, overriding it with the current union only for
non-`NonRecursive` shapes during synthesis of the body. -/
theorem c10_union_context_frame (root : Root) (ctx : Context) (uIn : Layout)
    (u : UnionLayout) (x : Symbol) (n : Nat) : C10Prop root ctx uIn u x n := by
  obtain ⟨op, ru⟩ := ctx
  refine ⟨?_, ?_, ?_⟩
  · cases u <;> rfl
  · intro h
    cases u with
    | nonRecursive tags => exact Bool.noConfusion h
    | recursive tags => rfl
    | nonNullableUnwrapped fls => rfl
    | nullableWrapped nid tags => rfl
    | nullableUnwrapped nid fls => rfl
  · intro tags h
    subst h
    rfl

/-- witness for C10 at a concrete recursive union -/
theorem c10_union_context_frame_witness :
    refcountUnion root64 ctxDec (.union unionTwoStr) unionTwoStr (.arg 1) 0 =
      ((refcountUnion root64 { ctxDec with recursiveUnion := some unionTwoStr }
          (.union unionTwoStr) unionTwoStr (.arg 1) 0).1,
       (refcountUnion root64 { ctxDec with recursiveUnion := some unionTwoStr }
          (.union unionTwoStr) unionTwoStr (.arg 1) 0).2.1, ctxDec) :=
  (c10_union_context_frame root64 ctxDec (.union unionTwoStr) unionTwoStr
    (.arg 1) 0).2.1 rfl

/-- C2 (code bug): on a recursive union whose tag id lives in the low
pointer bits, both `reset` and `resetref` recover the refcount address
without ever masking: no `And` operation occurs anywhere in either body,
and the address symbol `addr` is bound directly to the raw pointer cast of
the structure; the unique branch of `resetref` returns that unmasked
address. -/
theorem c2_reset_unmasked_rc_ptr :
    ((refcountResetProcBody root64 ctxDec (.union unionTwoStr) (.arg 1) 0).1.usesLowLevel
        .and = false) ∧
    ((refcountResetProcBody root64 ctxDec (.union unionTwoStr) (.arg 1) 0).1.findBinding
        (.fresh 4) = some (.lowLevel .ptrCast [.arg 1])) ∧
    ((refcountResetRefProcBody root64 ctxDec (.union unionTwoStr) (.arg 1) 0).1.usesLowLevel
        .and = false) ∧
    ((refcountResetRefProcBody root64 ctxDec (.union unionTwoStr) (.arg 1) 0).1.findBinding
        (.fresh 4) = some (.lowLevel .ptrCast [.arg 1])) ∧
    ((resetBranches (refcountResetRefProcBody root64 ctxDec (.union unionTwoStr)
        (.arg 1) 0).1).map Prod.fst = some (.ret (.fresh 4))) :=
  ⟨rfl, rfl, rfl, rfl, rfl⟩

/-- C6 (code bug): the `DecRef` rewriter's `Str` arm re-enters
`refcount_stmt` with the same `DecRef` marker and the same `Str` layout,
so it never terminates (`none` for every fuel), instead of behaving like
`Dec`; the other three arms behave as the claim states: structs and
non-recursive unions are no-ops, and any other layout inlines the decref
body in a join point wrapping the continuation. -/
theorem c6_decref_rewrite :
    (∀ root fuel ctx x following n,
      refcountStmt root fuel ctx (.builtin .str) (.decRef x) following n = none) ∧
    (∀ root fuel ctx fs x following n,
      refcountStmt root fuel ctx (.structL fs) (.decRef x) following n
        = some (following, n, ctx)) ∧
    (∀ root fuel ctx tags x following n,
      refcountStmt root fuel ctx (.union (.nonRecursive tags)) (.decRef x) following n
        = some (following, n, ctx)) ∧
    (∀ root fuel (ctx : Context) jp layout x following n, ctx.op = .decRef jp →
      layout.decrefInlines = true →
      refcountStmt root fuel ctx layout (.decRef x) following n
        = some (.join jp [] following (refcountGeneric root ctx layout x n).1,
            (refcountGeneric root ctx layout x n).2.1,
            (refcountGeneric root ctx layout x n).2.2)) := by
  refine ⟨?_, ?_, ?_, ?_⟩
  · intro root fuel
    induction fuel with
    | zero => intro ctx x following n; rfl
    | succ f ih => intro ctx x following n; exact ih _ x following n
  · intro root fuel ctx fs x following n; cases fuel <;> rfl
  · intro root fuel ctx tags x following n; cases fuel <;> rfl
  · intro root fuel ctx jp layout x following n hop hinl
    obtain ⟨op, ru⟩ := ctx
    dsimp only at hop
    subst hop
    cases layout with
    | builtin b =>
        cases b <;> cases fuel <;> first | rfl | simp [Layout.decrefInlines] at hinl
    | structL fs => simp [Layout.decrefInlines] at hinl
    | union u =>
        cases u <;> cases fuel <;> first | rfl | simp [Layout.decrefInlines] at hinl
    | lambdaSet r => cases fuel <;> rfl
    | recursivePointer => cases fuel <;> rfl
    | boxed i => cases fuel <;> rfl

/-- witness for the hypotheses of the inlining arm of C6: a list layout
with the context operation set to `DecRef` -/
theorem c6_decref_rewrite_witness :
    refcountStmt root64 7 { op := .decRef (.fresh 99), recursiveUnion := none }
      (.builtin (.list (.builtin .str))) (.decRef (.arg 1)) (.ret (.arg 1)) 0
      = some (.join (.fresh 99) [] (.ret (.arg 1))
          (refcountGeneric root64 { op := .decRef (.fresh 99), recursiveUnion := none }
            (.builtin (.list (.builtin .str))) (.arg 1) 0).1,
          (refcountGeneric root64 { op := .decRef (.fresh 99), recursiveUnion := none }
            (.builtin (.list (.builtin .str))) (.arg 1) 0).2.1,
          (refcountGeneric root64 { op := .decRef (.fresh 99), recursiveUnion := none }
            (.builtin (.list (.builtin .str))) (.arg 1) 0).2.2) :=
  c6_decref_rewrite.2.2.2 root64 7 { op := .decRef (.fresh 99), recursiveUnion := none }
    (.fresh 99) (.builtin (.list (.builtin .str))) (.arg 1) (.ret (.arg 1)) 0 rfl rfl

/-- C9 (code bug): `call` emits only the `CALL` opcode and never appends
its 32-bit function-index immediate, while every immediate that does go
through `inst_imm32` / `inst_mem` is appended in unsigned LEB128
(continuation bit `0x80` on every byte but the last, 7 payload bits per
byte, decoding back to the value) and `f32_const` / `f64_const` append the
raw bit pattern little-endian with no LEB encoding. -/
theorem c9_wasm_immediates :
    ((Wasm.call { code := [], vmStack := [] } 5 0 false).code = [Wasm.CALL]) ∧
    (∀ fb pops push opcode imm, (Wasm.instImm32 fb pops push opcode imm).code
        = (fb.code ++ [opcode]) ++ Wasm.lebU imm) ∧
    (∀ fb pops push opcode align offset,
      (Wasm.instMem fb pops push opcode align offset).code
        = ((fb.code ++ [opcode]) ++ [align]) ++ Wasm.lebU offset) ∧
    (∀ v, (Wasm.lebU v).all (fun b => decide (b < 256)) = true ∧
          (Wasm.lebU v).dropLast.all (fun b => decide (0x80 ≤ b)) = true ∧
          (Wasm.lebU v).getLast?.all (fun b => decide (b < 0x80)) = true ∧
          Wasm.ulebDecode (Wasm.lebU v) = v) ∧
    (∀ fb bits, (Wasm.f32Const fb bits).code
        = (fb.code ++ [Wasm.F32CONST]) ++
          [bits % 256, bits / 2 ^ 8 % 256, bits / 2 ^ 16 % 256, bits / 2 ^ 24 % 256]) ∧
    (∀ fb bits, (Wasm.f64Const fb bits).code
        = (fb.code ++ [Wasm.F64CONST]) ++
          [bits % 256, bits / 2 ^ 8 % 256, bits / 2 ^ 16 % 256, bits / 2 ^ 24 % 256,
           bits / 2 ^ 32 % 256, bits / 2 ^ 40 % 256, bits / 2 ^ 48 % 256,
           bits / 2 ^ 56 % 256]) := by
  refine ⟨rfl, fun _ _ _ _ _ => rfl, fun _ _ _ _ _ _ => rfl, Wasm.lebU_spec, ?_, ?_⟩
  · intro fb bits
    show (fb.code ++ [Wasm.F32CONST]) ++ Wasm.leBytes 4 bits = _
    rw [Wasm.leBytes_four]
  · intro fb bits
    show (fb.code ++ [Wasm.F64CONST]) ++ Wasm.leBytes 8 bits = _
    rw [Wasm.leBytes_eight]

end Roc

namespace Roc

/-- a specialized call is never a refcount-modify intrinsic -/
theorem modifyRcTarget_callSpecializedOp (ctx : Context) (l : Layout)
    (args : List Symbol) :
    Expr.modifyRcTarget (callSpecializedOp ctx l args) = none := by
  obtain ⟨op, ru⟩ := ctx
  cases l with
  | recursivePointer => cases ru <;> rfl
  | builtin b => rfl
  | structL fs => rfl
  | union u => rfl
  | lambdaSet r => rfl
  | boxed i => rfl

/-- the element loop adds no refcount-modify intrinsic of its own: its
modify targets are those of the continuation -/
theorem modifyRcTargets_listElems (root : Root) (ctx : Context)
    (elemLayout retL boxL : Layout) (len elems : Symbol) (following : Stmt)
    (n : Nat) :
    Stmt.modifyRcTargets
      (refcountListElems root ctx elemLayout retL boxL len elems following n).1
      = Stmt.modifyRcTargets following := by
  have hnone :=
    modifyRcTarget_callSpecializedOp ctx elemLayout (refcountArgs ctx (.fresh (n + 7)))
  simp only [Expr.modifyRcTarget] at hnone
  simp only [refcountListElems, letLowlevel, Stmt.modifyRcTargets, Stmt.letsList,
    branchesLetsList, List.filterMap_cons, List.filterMap_append, List.filterMap_nil,
    Expr.modifyRcTarget, hnone, List.append_nil, List.nil_append]

/-- Amended C1 (the corrected claim): see `C1Prop`. -/
theorem c1_list_modify_and_iteration (root : Root) (ctx : Context)
    (elemLayout : Layout) (x : Symbol) (n : Nat) (h : ctx.op.isRcOp = true) :
    C1Prop root ctx elemLayout x n := by
  obtain ⟨op, ru⟩ := ctx
  cases op with
  | reset => exact Bool.noConfusion h
  | resetRef => exact Bool.noConfusion h
  | inc =>
      cases hre : Layout.isRefcounted elemLayout <;>
        refine ⟨_, _, _, rfl, ?_, fun _ h2 => Bool.noConfusion h2, fun _ => ?_⟩ <;>
        simp only [hre] <;> rfl
  | decRef jp =>
      cases hre : Layout.isRefcounted elemLayout <;>
        refine ⟨_, _, _, rfl, ?_, fun _ h2 => Bool.noConfusion h2, fun _ => ?_⟩ <;>
        simp only [hre] <;> rfl
  | dec =>
      cases hre : Layout.isRefcounted elemLayout
      · refine ⟨_, _, _, rfl, ?_, ?_, ?_⟩
        · simp only [hre]; rfl
        · intro h1 _; rw [hre] at h1; exact Bool.noConfusion h1
        · intro _; simp only [hre]; rfl
      · refine ⟨_, _, _, rfl, ?_, ?_, ?_⟩
        · simp only [hre, Bool.true_and, HelperOp.isDec, if_true]
          rw [modifyRcTargets_listElems]
          rfl
        · intro _ _
          simp only [hre, Bool.true_and, HelperOp.isDec, if_true]
          rfl
        · intro hcontra
          rcases hcontra with h1 | h1
          · rw [hre] at h1; exact Bool.noConfusion h1
          · exact Bool.noConfusion h1

end Roc

namespace Roc

/-- witness for the amended C1: `List Str`, `Dec`, 64-bit environment -/
theorem c1_list_modify_witness : C1Prop root64 ctxDec (.builtin .str) (.arg 1) 0 :=
  c1_list_modify_and_iteration root64 ctxDec (.builtin .str) (.arg 1) 0 rfl

/-- counterexample to C1 as frozen: for `List Str` under `Dec`, the
seamless-slice branch jumps to the join point with `slice_elems` (symbol
8), which is bound to `capacity <<< 1` — not a field-0 projection — while
the only refcount-modify target is the join-point parameter `elements`
(symbol 6), which is bound nowhere (in particular not to field 0): the
pointer used for the refcount modification on the slice path is therefore
not the field-0 pointer, and the iteration count is `len`, not the shifted
capacity. -/
theorem c1_list_counterexample :
    ((refcountList root64 ctxDec (.builtin .str) (.arg 1) 0).1.findBinding (.fresh 8)
        = some (.lowLevel .numShiftLeftBy [.fresh 3, .fresh 7])) ∧
    (Expr.isField0Proj (.lowLevel .numShiftLeftBy [.fresh 3, .fresh 7]) = false) ∧
    ((refcountList root64 ctxDec (.builtin .str) (.arg 1) 0).1.modifyRcTargets
        = [.fresh 6]) ∧
    ((refcountList root64 ctxDec (.builtin .str) (.arg 1) 0).1.findBinding (.fresh 6)
        = none) :=
  ⟨rfl, rfl, rfl, rfl⟩

end Roc

namespace Roc

/-- C4: for recursive unions under `dec`, the control path taken when
`rc_is_unique` is false performs no field projection and no child refcount
call.  In `refcount_union_contents` (used by the non-tail recursive form)
that path is a bare jump to the `jp_contents_modified` join point; in the
non-tail form the join body is the header modification followed by the
return; in the tail-recursive form the false path binds a null pointer and
jumps with it to `jp_modify_union`, whose body modifies the header and
exits the loop on the `0` (null) address.  The join bodies bind no
projection, no specialized call, and no unbox, and the only refcount
target of the tail form's join body is the current node. -/
theorem c4_nonunique_header_only :
    (∀ root ctx u tags nullId x tsym tl next n, u.isNonRec = false →
      ∃ sw k, refcountUnionContents root ctx u tags nullId x tsym tl next n =
        (.join (.fresh n) [] next
          (.letS (.fresh k) (.lowLevel .refCountIsUnique [x]) LAYOUT_BOOL
            (.switch (.fresh k) LAYOUT_BOOL [(1, sw)] (.jump (.fresh n) [])
              LAYOUT_UNIT)), k + 1)) ∧
    (∀ root (ctx : Context) u tags nullId x n, ctx.op = .dec → u.isNonRec = false →
      (∃ sw k, refcountUnionRec root ctx u tags nullId x n =
        (.letS (.fresh n) (.getTagId x u) u.tagIdLayout
          (.join (.fresh (n + 4)) [] (c4Modify root ctx u x n)
            (.letS (.fresh k) (.lowLevel .refCountIsUnique [x]) LAYOUT_BOOL
              (.switch (.fresh k) LAYOUT_BOOL [(1, sw)] (.jump (.fresh (n + 4)) [])
                LAYOUT_UNIT))), k + 1)) ∧
      Stmt.anyLet Expr.projCallOrUnbox (c4Modify root ctx u x n) = false) ∧
    (∀ root (ctx : Context) u tags nullId idxs x n, ctx.op = .dec →
      (∃ sw k, refcountUnionTailrec root ctx u tags nullId idxs x n =
        (.join (.fresh n) [⟨.fresh (n + 1), .borrowed, .union u⟩]
          (.letS (.fresh (n + 3)) (.getTagId (.fresh (n + 1)) u) u.tagIdLayout
            (.join (.fresh (n + 8)) [⟨.fresh (n + 2), .borrowed, .union u⟩]
              (c4ModifyTailrec root ctx u n)
              (.letS (.fresh k) (.lowLevel .refCountIsUnique [.fresh (n + 1)])
                  LAYOUT_BOOL
                (.switch (.fresh k) LAYOUT_BOOL [(1, sw)]
                  (.letS (.fresh (k + 1)) .nullPointer (.union u)
                    (.jump (.fresh (n + 8)) [.fresh (k + 1)])) LAYOUT_UNIT))))
          (.jump (.fresh n) [x]), k + 2)) ∧
      Stmt.anyLet Expr.projCallOrUnbox (c4ModifyTailrec root ctx u n) = false ∧
      Stmt.modifyRcTargets (c4ModifyTailrec root ctx u n) = [.fresh (n + 1)]) := by
  refine ⟨?_, ?_, ?_⟩
  · intro root ctx u tags nullId x tsym tl next n hnr
    cases u with
    | nonRecursive tags' => exact Bool.noConfusion hnr
    | recursive tags' => exact ⟨_, _, rfl⟩
    | nonNullableUnwrapped fls => exact ⟨_, _, rfl⟩
    | nullableWrapped nid tags' => exact ⟨_, _, rfl⟩
    | nullableUnwrapped nid fls => exact ⟨_, _, rfl⟩
  · intro root ctx u tags nullId x n hop hnr
    obtain ⟨op, ru⟩ := ctx
    dsimp only at hop
    subst hop
    refine ⟨?_, rfl⟩
    cases u with
    | nonRecursive tags' => exact Bool.noConfusion hnr
    | recursive tags' => exact ⟨_, _, rfl⟩
    | nonNullableUnwrapped fls => exact ⟨_, _, rfl⟩
    | nullableWrapped nid tags' => exact ⟨_, _, rfl⟩
    | nullableUnwrapped nid fls => exact ⟨_, _, rfl⟩
  · intro root ctx u tags nullId idxs x n hop
    obtain ⟨op, ru⟩ := ctx
    dsimp only at hop
    subst hop
    exact ⟨⟨_, _, rfl⟩, rfl, rfl⟩

/-- witness for C4 at a concrete two-arm recursive union under `Dec` -/
theorem c4_nonunique_header_only_witness :
    Stmt.anyLet Expr.projCallOrUnbox (c4Modify root64 ctxDec unionTwoStr (.arg 1) 0)
        = false ∧
    Stmt.anyLet Expr.projCallOrUnbox (c4ModifyTailrec root64 ctxDec unionTwoStr 0)
        = false ∧
    Stmt.modifyRcTargets (c4ModifyTailrec root64 ctxDec unionTwoStr 0) = [.fresh 1] :=
  ⟨(c4_nonunique_header_only.2.1 root64 ctxDec unionTwoStr [] none (.arg 1) 0
      rfl rfl).2,
   (c4_nonunique_header_only.2.2 root64 ctxDec unionTwoStr [] none [] (.arg 1) 0
      rfl).2.1,
   (c4_nonunique_header_only.2.2 root64 ctxDec unionTwoStr [] none [] (.arg 1) 0
      rfl).2.2⟩

end Roc

namespace Roc

/-- the generators' return statement binds no expression a non-call-false
predicate accepts -/
theorem anyLet_rcReturn (ctx : Context) (k : Nat) (p : Expr → Bool)
    (hnotcall : ∀ e, e.isCallSpec = false → p e = false) :
    Stmt.anyLet p (rcReturnStmt ctx k).1 = false := by
  obtain ⟨op, ru⟩ := ctx
  have h1 := hnotcall (.structE []) rfl
  cases op <;> simp [rcReturnStmt, Stmt.anyLet, h1]

/-- `refcount_tag_fields` adds only per-field projections and specialized
calls: under a predicate false on non-calls and false on the calls of the
listed fields, the accumulated statement's verdict is unchanged -/
theorem anyLet_tagFieldsGo (ctx : Context) (u : UnionLayout) (x : Symbol) (tid : Nat)
    (p : Expr → Bool) (hnotcall : ∀ e, e.isCallSpec = false → p e = false)
    (fls : List (Nat × Layout)) :
    ∀ acc : Stmt × Nat,
      (∀ pr ∈ fls, ∀ args, p (callSpecializedOp ctx pr.2 args) = false) →
      Stmt.anyLet p (refcountTagFieldsGo ctx u x tid fls acc).1
        = Stmt.anyLet p acc.1 := by
  induction fls with
  | nil => intro acc _; rfl
  | cons pr rest ih =>
      intro acc hcall
      obtain ⟨i, fl⟩ := pr
      rw [refcountTagFieldsGo]
      rw [ih _ (fun q hq args => hcall q (List.mem_cons_of_mem _ hq) args)]
      cases hrc : Layout.containsRefcounted fl with
      | false => simp [hrc]
      | true =>
          have hproj := hnotcall (.unionAtIndex u tid i x) rfl
          have hc := hcall (i, fl) (List.mem_cons_self _ _)
            (refcountArgs ctx (.fresh acc.2))
          simp [hrc, Stmt.anyLet, hproj, hc]

/-- the per-arm branches of `refcount_union_contents` satisfy a predicate
false on non-calls and on the arms' specialized calls -/
theorem anyLet_contentsBranchesGo (ctx : Context) (u : UnionLayout) (x : Symbol)
    (jp : JoinPointId) (p : Expr → Bool)
    (hnotcall : ∀ e, e.isCallSpec = false → p e = false)
    (prs : List (List Layout × Nat)) :
    ∀ m, (∀ pr ∈ prs, ∀ q ∈ pr.1.enum, ∀ args,
            p (callSpecializedOp ctx q.2 args) = false) →
      branchesAnyLet p (contentsBranchesGo ctx u x jp prs m).1 = false := by
  induction prs with
  | nil => intro m _; rfl
  | cons pr rest ih =>
      intro m hcall
      obtain ⟨fls, tid⟩ := pr
      rw [contentsBranchesGo]
      simp only [branchesAnyLet]
      rw [ih _ (fun q hq => hcall q (List.mem_cons_of_mem _ hq))]
      simp only [refcountTagFields]
      rw [anyLet_tagFieldsGo ctx u x tid p hnotcall fls.enum.reverse _
        (fun q hq args => hcall (fls, tid) (List.mem_cons_self _ _) q
          (List.mem_reverse.mp hq) args)]
      rfl

/-- `popLastBranch` on a list of length at least two keeps the head -/
theorem popLastBranch_cons_cons (a b : Nat × Stmt) (m : List (Nat × Stmt)) :
    popLastBranch (a :: b :: m)
      = (a :: (popLastBranch (b :: m)).1, (popLastBranch (b :: m)).2) := by
  unfold popLastBranch
  cases h : (b :: m).getLast? with
  | none => simp at h
  | some pr => simp [List.getLast?_cons_cons, h]

/-- splitting the last branch off as a default preserves the combined
`anyLet` verdict of the branch list -/
theorem branchesAnyLet_popLast (p : Expr → Bool) (l : List (Nat × Stmt)) :
    (branchesAnyLet p (popLastBranch l).1 || Stmt.anyLet p (popLastBranch l).2)
      = branchesAnyLet p l := by
  induction l with
  | nil => rfl
  | cons a l ih =>
      cases l with
      | nil => simp [popLastBranch, branchesAnyLet, Bool.or_comm]
      | cons b m =>
          rw [popLastBranch_cons_cons]
          simp only [branchesAnyLet]
          rw [Bool.or_assoc, ih]
          rfl

/-- `branchesAnyLet` distributes over append -/
theorem branchesAnyLet_append (p : Expr → Bool) (l1 l2 : List (Nat × Stmt)) :
    branchesAnyLet p (l1 ++ l2) = (branchesAnyLet p l1 || branchesAnyLet p l2) := by
  induction l1 with
  | nil => simp [branchesAnyLet]
  | cons a l ih => simp [branchesAnyLet, ih, Bool.or_assoc]

/-- the whole union-contents statement satisfies a predicate false on
non-calls, false on all specialized calls of the context, and false on the
continuation -/
theorem anyLet_refcountUnionContents (root : Root) (ctx : Context) (u : UnionLayout)
    (tags : List (List Layout)) (nullId : Option Nat) (x tsym : Symbol) (tl : Layout)
    (next : Stmt) (n : Nat) (p : Expr → Bool)
    (hnotcall : ∀ e, e.isCallSpec = false → p e = false)
    (hcall : ∀ l args, p (callSpecializedOp ctx l args) = false)
    (hnext : Stmt.anyLet p next = false) :
    Stmt.anyLet p (refcountUnionContents root ctx u tags nullId x tsym tl next n).1
      = false := by
  have hlow : ∀ op args, p (.lowLevel op args) = false := fun op args => hnotcall _ rfl
  have hgo : ∀ m, branchesAnyLet p (contentsBranchesGo ctx u x (.fresh n)
      (tags.zip (unionTagIds nullId tags.length)) m).1 = false :=
    fun m => anyLet_contentsBranchesGo ctx u x (.fresh n) p hnotcall _ m
      (fun pr _ q _ args => hcall q.2 args)
  have hret : ∀ k, Stmt.anyLet p (rcReturnStmt ctx k).1 = false :=
    fun k => anyLet_rcReturn ctx k p hnotcall
  have hpop1 : ∀ L, branchesAnyLet p L = false →
      branchesAnyLet p (popLastBranch L).1 = false := by
    intro L hL
    have h2 := branchesAnyLet_popLast p L
    rw [hL] at h2
    exact (Bool.or_eq_false_iff.mp h2).1
  have hpop2 : ∀ L, branchesAnyLet p L = false →
      Stmt.anyLet p (popLastBranch L).2 = false := by
    intro L hL
    have h2 := branchesAnyLet_popLast p L
    rw [hL] at h2
    exact (Bool.or_eq_false_iff.mp h2).2
  unfold refcountUnionContents
  cases u <;> cases nullId <;>
    simp [Stmt.anyLet, branchesAnyLet, hnext, hlow, hpop1, hpop2, hgo, hret,
      branchesAnyLet_append]

end Roc

namespace Roc

/-- C3: `reset` loads the refcount through the computed address and
compares it with 1; in the unique branch it reads the tag id and runs the
union-contents decrement of the children under `op = Dec` (so it binds no
specialized call with any other operation) before returning the address,
and in the shared branch it calls the specialized `dec` on the whole value
and returns a null pointer; `resetref` is identical except that its unique
branch returns the address immediately, touching no data. -/
theorem c3_reset_resetref (root : Root) (ctx : Context) (u : UnionLayout)
    (x : Symbol) (n : Nat) : C3Prop root ctx u x n := by
  refine ⟨(refcountUnionContents root { op := .dec, recursiveUnion := some u } u
      (resetTagLayouts u).1 (resetTagLayouts u).2 x (.fresh (n + 5)) u.tagIdLayout
      (.ret (.fresh (n + 4))) (n + 6)).1,
    (refcountUnionContents root { op := .dec, recursiveUnion := some u } u
      (resetTagLayouts u).1 (resetTagLayouts u).2 x (.fresh (n + 5)) u.tagIdLayout
      (.ret (.fresh (n + 4))) (n + 6)).2, rfl, rfl, ?_, rfl, rfl⟩
  exact anyLet_refcountUnionContents root _ u _ _ x _ _ _ _ _
    (fun e he => by cases e <;> first | rfl | exact Bool.noConfusion he)
    (fun l args => by cases l <;> rfl)
    rfl

end Roc

namespace Roc

/-- the kept branches of a `popLastBranch` split inherit a false verdict -/
theorem branchesAnyLet_popLast_fst (p : Expr → Bool) (L : List (Nat × Stmt))
    (hL : branchesAnyLet p L = false) :
    branchesAnyLet p (popLastBranch L).1 = false := by
  have h2 := branchesAnyLet_popLast p L
  rw [hL] at h2
  exact (Bool.or_eq_false_iff.mp h2).1

/-- the default branch of a `popLastBranch` split inherits a false
verdict -/
theorem branchesAnyLet_popLast_snd (p : Expr → Bool) (L : List (Nat × Stmt))
    (hL : branchesAnyLet p L = false) :
    Stmt.anyLet p (popLastBranch L).2 = false := by
  have h2 := branchesAnyLet_popLast p L
  rw [hL] at h2
  exact (Bool.or_eq_false_iff.mp h2).2

/-- `modify_refcount` binds only low-level calls and literals -/
theorem anyLet_modifyRefcount (ctx : Context) (d : Symbol) (a : Nat) (f : Stmt)
    (m : Nat) (p : Expr → Bool)
    (hnotcall : ∀ e, e.isCallSpec = false → p e = false)
    (hf : Stmt.anyLet p f = false) :
    Stmt.anyLet p (modifyRefcount ctx d a f m).1 = false := by
  obtain ⟨op, ru⟩ := ctx
  have hlow : ∀ o args, p (.lowLevel o args) = false := fun o args => hnotcall _ rfl
  have hlit : ∀ i, p (.literalInt i) = false := fun i => hnotcall _ rfl
  cases op <;> simp [modifyRefcount, Stmt.anyLet, hlow, hlit, hf]

/-- the non-tail recursive union form never produces the outer-loop shape -/
theorem isLoopForm_refcountUnionRec (root : Root) (ctx : Context) (u : UnionLayout)
    (tags : List (List Layout)) (nullId : Option Nat) (x : Symbol) (n : Nat) :
    Stmt.isLoopForm (refcountUnionRec root ctx u tags nullId x n).1 = false := by
  obtain ⟨op, ru⟩ := ctx
  cases op <;> cases nullId <;> rfl

/-- the per-arm branches of the tail-recursive form bind only projections,
null pointers, and the specialized calls of the non-tail fields -/
theorem anyLet_tailrecBranchesGo (ctx : Context) (u : UnionLayout) (layout : Layout)
    (current : Symbol) (jp : JoinPointId) (p : Expr → Bool)
    (hnotcall : ∀ e, e.isCallSpec = false → p e = false)
    (prs : List ((List Layout × Option Nat) × Nat)) :
    ∀ n, (∀ pr ∈ prs, ∀ q ∈ pr.1.1.enum, pr.1.2 ≠ some q.1 →
            ∀ args, p (callSpecializedOp ctx q.2 args) = false) →
      branchesAnyLet p (tailrecBranchesGo ctx u layout current jp prs n).1 = false := by
  induction prs with
  | nil => intro n _; rfl
  | cons pr rest ih =>
      intro n hcall
      obtain ⟨⟨fls, optIdx⟩, tagId⟩ := pr
      have hrest : ∀ m, branchesAnyLet p
          (tailrecBranchesGo ctx u layout current jp rest m).1 = false :=
        fun m => ih m (fun q hq => hcall q (List.mem_cons_of_mem _ hq))
      cases optIdx with
      | none =>
          have hnull := hnotcall .nullPointer rfl
          have hfields : ∀ q ∈ fls.enum.reverse, ∀ args,
              p (callSpecializedOp ctx q.2 args) = false := by
            intro q hq args
            exact hcall ((fls, none), tagId) (List.mem_cons_self _ _) q
              (List.mem_reverse.mp hq) (by simp) args
          rw [tailrecBranchesGo]
          simp only [branchesAnyLet, refcountTagFields]
          rw [hrest, anyLet_tagFieldsGo ctx u current tagId p hnotcall _ _ hfields]
          simp [Stmt.anyLet, hnull]
      | some t =>
          have hfields : ∀ q ∈ (fls.enum.filter (fun q => !(q.1 == t))).reverse,
              ∀ args, p (callSpecializedOp ctx q.2 args) = false := by
            intro q hq args
            have h2 := List.mem_filter.mp (List.mem_reverse.mp hq)
            have hne : q.1 ≠ t := by simpa using h2.2
            exact hcall ((fls, some t), tagId) (List.mem_cons_self _ _) q h2.1
              (fun hc => hne (Option.some.inj hc).symm) args
          rw [tailrecBranchesGo]
          cases hget : fls.get? t with
          | some fl =>
              have hproj := hnotcall (.unionAtIndex u tagId t current) rfl
              simp only [hget, branchesAnyLet, refcountTagFields]
              rw [hrest, anyLet_tagFieldsGo ctx u current tagId p hnotcall _ _ hfields]
              simp [Stmt.anyLet, hproj]
          | none =>
              simp only [hget, branchesAnyLet, refcountTagFields]
              rw [hrest, anyLet_tagFieldsGo ctx u current tagId p hnotcall _ _ hfields]
              simp [Stmt.anyLet, unreachableStmt]

end Roc

namespace Roc

/-- the whole tail-recursive union body satisfies a predicate false on
non-calls and false on the specialized calls of every non-tail field -/
theorem anyLet_refcountUnionTailrec (root : Root) (ctx : Context) (u : UnionLayout)
    (tags : List (List Layout)) (nullId : Option Nat) (idxs : List (Option Nat))
    (x : Symbol) (n : Nat) (p : Expr → Bool)
    (hnotcall : ∀ e, e.isCallSpec = false → p e = false)
    (hcall : ∀ pr ∈ tags.zip idxs, ∀ q ∈ pr.1.enum, pr.2 ≠ some q.1 →
        ∀ args, p (callSpecializedOp ctx q.2 args) = false) :
    Stmt.anyLet p (refcountUnionTailrec root ctx u tags nullId idxs x n).1 = false := by
  have hlow : ∀ o args, p (.lowLevel o args) = false := fun o args => hnotcall _ rfl
  have hnull : p .nullPointer = false := hnotcall _ rfl
  have htag : ∀ s, p (.getTagId s u) = false := fun s => hnotcall _ rfl
  have hret : ∀ k, Stmt.anyLet p (rcReturnStmt ctx k).1 = false :=
    fun k => anyLet_rcReturn ctx k p hnotcall
  have hmod : ∀ d a f m, Stmt.anyLet p f = false →
      Stmt.anyLet p (modifyRefcount ctx d a f m).1 = false :=
    fun d a f m hf => anyLet_modifyRefcount ctx d a f m p hnotcall hf
  have hgo : ∀ cur jp m, branchesAnyLet p (tailrecBranchesGo ctx u (Layout.union u)
      cur jp ((tags.zip idxs).zip (unionTagIds nullId tags.length)) m).1 = false := by
    intro cur jp m
    refine anyLet_tailrecBranchesGo ctx u (Layout.union u) cur jp p hnotcall _ m ?_
    rintro ⟨a, b⟩ hpr q hq hne args
    exact hcall a (List.of_mem_zip hpr).1 q hq hne args
  unfold refcountUnionTailrec
  cases nullId <;>
    simp [Stmt.anyLet, branchesAnyLet, letLowlevel, ifThenElse, hlow, hnull, htag,
      hret, hmod, hgo, branchesAnyLet_popLast_fst, branchesAnyLet_popLast_snd,
      branchesAnyLet_append]

end Roc

namespace Roc

/-- C5: the generator emits the outer-loop form (a `tailrec_loop(current)`
join point driven by jumps) exactly when the op is `dec` and the borrow
analysis identified tail-recursive field indices for the union — possible
for the `Recursive`, `NullableWrapped` and `NullableUnwrapped` shapes and
never for `NonNullableUnwrapped` (or `NonRecursive`); the emitted loop
starts by jumping into the join point with the argument, and when every
non-tail field of every arm is non-recursive (the cons-like case) the
`dec` body binds no recursive self-call anywhere. -/
theorem c5_tailrec_exactly_when (root : Root) (ctx : Context) (uIn : Layout)
    (x : Symbol) (n : Nat) :
    (∀ tags,
      Stmt.isLoopForm (refcountUnion root ctx uIn (.recursive tags) x n).1
        = ((root.unionTailRec uIn (.recursive tags)).isSome && ctx.op.isDec)) ∧
    (∀ nid tags,
      Stmt.isLoopForm (refcountUnion root ctx uIn (.nullableWrapped nid tags) x n).1
        = ((root.unionTailRec uIn (.nullableWrapped nid tags)).isSome && ctx.op.isDec)) ∧
    (∀ nid fls,
      Stmt.isLoopForm (refcountUnion root ctx uIn (.nullableUnwrapped nid fls) x n).1
        = ((root.unionTailRec uIn (.nullableUnwrapped nid fls)).isSome && ctx.op.isDec)) ∧
    (∀ fls,
      Stmt.isLoopForm (refcountUnion root ctx uIn (.nonNullableUnwrapped fls) x n).1
        = false) ∧
    (∀ tags,
      Stmt.isLoopForm (refcountUnion root ctx uIn (.nonRecursive tags) x n).1
        = false) ∧
    (∀ u tags nullId idxs, ∃ loopBody,
      (refcountUnionTailrec root ctx u tags nullId idxs x n).1
        = .join (.fresh n) [⟨.fresh (n + 1), .borrowed, .union u⟩] loopBody
            (.jump (.fresh n) [x])) ∧
    (∀ u tags nullId idxs,
      (∀ pr ∈ tags.zip idxs, ∀ q ∈ pr.1.enum, pr.2 ≠ some q.1 →
        Layout.isRecursiveish q.2 = false) →
      Stmt.anyLet Expr.isRecUnionCall
        (refcountUnionTailrec root { op := .dec, recursiveUnion := some u } u tags
          nullId idxs x n).1 = false) := by
  obtain ⟨op, ru⟩ := ctx
  refine ⟨?_, ?_, ?_, ?_, ?_, ?_, ?_⟩
  · intro tags
    cases h1 : root.unionTailRec uIn (.recursive tags) with
    | some idxs =>
        cases h2 : op.isDec with
        | true =>
            simp only [refcountUnion, UnionLayout.isNonRec, Bool.false_eq_true,
              if_false, h1, h2]
            rfl
        | false => simp [refcountUnion, UnionLayout.isNonRec, h1, h2,
            isLoopForm_refcountUnionRec]
    | none => simp [refcountUnion, UnionLayout.isNonRec, h1,
        isLoopForm_refcountUnionRec]
  · intro nid tags
    cases h1 : root.unionTailRec uIn (.nullableWrapped nid tags) with
    | some idxs =>
        cases h2 : op.isDec with
        | true =>
            simp only [refcountUnion, UnionLayout.isNonRec, Bool.false_eq_true,
              if_false, h1, h2]
            rfl
        | false => simp [refcountUnion, UnionLayout.isNonRec, h1, h2,
            isLoopForm_refcountUnionRec]
    | none => simp [refcountUnion, UnionLayout.isNonRec, h1,
        isLoopForm_refcountUnionRec]
  · intro nid fls
    cases h1 : root.unionTailRec uIn (.nullableUnwrapped nid fls) with
    | some idxs =>
        cases h2 : op.isDec with
        | true =>
            simp only [refcountUnion, UnionLayout.isNonRec, Bool.false_eq_true,
              if_false, h1, h2]
            rfl
        | false => simp [refcountUnion, UnionLayout.isNonRec, h1, h2,
            isLoopForm_refcountUnionRec]
    | none => simp [refcountUnion, UnionLayout.isNonRec, h1,
        isLoopForm_refcountUnionRec]
  · intro fls
    exact isLoopForm_refcountUnionRec root _ _ _ _ x n
  · intro tags
    rfl
  · intro u tags nullId idxs
    exact ⟨_, rfl⟩
  · intro u tags nullId idxs hcons
    refine anyLet_refcountUnionTailrec root _ u tags nullId idxs x n _ ?_ ?_
    · intro e he
      cases e <;> first | rfl | exact Bool.noConfusion he
    · intro pr hpr q hq hne args
      have hl := hcons pr hpr q hq hne
      cases hq2 : q.2 <;> rw [hq2] at hl <;>
        first | rfl | exact hl | exact Bool.noConfusion hl

end Roc

namespace Roc

/-- the C5 theorem evaluated on the cons-cell union `[(i64, tail)]` under a
64-bit target whose borrow analysis reports the tail at field 1: the `dec`
body is the loop form, and it contains no recursive self-call -/
theorem c5_tailrec_exactly_when_witness :
    Stmt.isLoopForm (refcountUnion rootCons ctxDec
        (.union (.recursive [[.builtin (.int true 64), .recursivePointer]]))
        (.recursive [[.builtin (.int true 64), .recursivePointer]])
        (Symbol.arg 1) 0).1 = true ∧
    Stmt.anyLet Expr.isRecUnionCall
      (refcountUnionTailrec rootCons
        { op := .dec,
          recursiveUnion := some (.recursive [[.builtin (.int true 64), .recursivePointer]]) }
        (.recursive [[.builtin (.int true 64), .recursivePointer]])
        [[.builtin (.int true 64), .recursivePointer]] none [some 1]
        (Symbol.arg 1) 0).1 = false := by
  constructor
  · rw [(c5_tailrec_exactly_when rootCons ctxDec
        (.union (.recursive [[.builtin (.int true 64), .recursivePointer]]))
        (Symbol.arg 1) 0).1 [[.builtin (.int true 64), .recursivePointer]]]
    rfl
  · refine (c5_tailrec_exactly_when rootCons
        { op := .dec,
          recursiveUnion := some (.recursive [[.builtin (.int true 64), .recursivePointer]]) }
        (.union (.recursive [[.builtin (.int true 64), .recursivePointer]]))
        (Symbol.arg 1) 0).2.2.2.2.2.2
        (.recursive [[.builtin (.int true 64), .recursivePointer]])
        [[.builtin (.int true 64), .recursivePointer]] none [some 1] ?_
    decide

end Roc
